import Mathlib

set_option maxRecDepth 16384

/-!
Verification development for the per-book RAG engine of the readest reader
(`src/apps/readest-app/src/services/ai/`).

Shallow embedding conventions:
* JavaScript numbers are idealised as `ℚ` (scores, embedding components) and
  `ℕ` (indices, page numbers, timestamps).  `Math.sqrt` is modelled by
  `ratSqrt`, a floor square root that agrees with the ideal square root on
  perfect squares; no theorem below depends on its value elsewhere.
* The store (`aiStore.ts`) keeps one IndexedDB database per book plus warm
  caches.  All claims are about a single book, so `BookStore` models that
  book's namespace: the five object stores of the database together with the
  book's entries of the four in-memory caches.  Asynchronous methods become
  pure state transformers `BookStore → BookStore × α`.
* `lunr` is an external lexical library.  A built index is opaque: it is
  modelled as a search function `String → Option (List SearchRef)`, where
  `none` models the exception thrown on a query-parse failure.  The index
  constructor is passed as a parameter `build` wherever the source calls
  `lunr(...)`, and deserialisation (`JSON.parse` + `lunr.Index.load`) is
  modelled by `SerializedBM25.parse`, `none` modelling the caught failure.
* The chunker (`utils/chunker.ts`), the retry helper (`utils/retry.ts`) and
  the embedding transport are outside the given sources; their observable
  outcomes are inputs to the `indexBook` model (`SectionOutcome`,
  `EmbedOutcome`).  The cooperative abort signal is a function
  `abort : ℕ → Bool` giving the value of `abortSignal.aborted` at the n-th
  read, reads being counted in execution order.
-/

/-- Search method tag of a scored chunk (`types.ts`). -/
inductive SearchMethod where
  | vector
  | bm25
  | hybrid
  | context
deriving DecidableEq, Repr

/-- A text chunk as persisted in the `chunks` object store (`types.ts`). -/
structure TextChunk where
  id : String
  bookHash : String
  sectionIndex : ℕ
  chapterTitle : String
  pageNumber : ℕ
  text : String
  embedding : Option (List ℚ)
deriving DecidableEq, Repr

/-- A chunk with a retrieval score, as returned by the search methods. -/
structure ScoredChunk extends TextChunk where
  score : ℚ
  searchMethod : SearchMethod
deriving DecidableEq, Repr

/-- Book index metadata, written last in an indexing run (`types.ts`). -/
structure BookIndexMeta where
  bookHash : String
  bookTitle : String
  authorName : String
  totalSections : ℕ
  totalChunks : ℕ
  embeddingModel : String
  lastUpdated : ℕ
deriving DecidableEq, Repr

/-- A persisted conversation record. -/
structure AIConversation where
  id : String
  bookHash : String
  title : String
  createdAt : ℕ
  updatedAt : ℕ
deriving DecidableEq, Repr

/-- Role of a persisted chat message. -/
inductive MessageRole where
  | user
  | assistant
deriving DecidableEq, Repr

/-- A persisted chat message. -/
structure AIMessage where
  id : String
  conversationId : String
  role : MessageRole
  content : String
  createdAt : ℕ
deriving DecidableEq, Repr

/-- One hit returned by `lunr.Index.search`: a document ref and its BM25
score. -/
structure SearchRef where
  ref : String
  score : ℚ
deriving DecidableEq, Repr

/-- An in-memory lunr index, opaque except for its search behaviour.
`search q = none` models `index.search(query)` throwing (e.g. a
`lunr.QueryParseError`). -/
structure LunrIndex where
  search : String → Option (List SearchRef)

/-- A record of the `bm25Indices` object store.  `parse = none` models a
serialized blob on which `JSON.parse` or `lunr.Index.load` fails. -/
structure SerializedBM25 where
  parse : Option LunrIndex

/-- The per-book storage namespace of `AIStore`: the object stores of the
database `readest-ai-<bookHash>` plus this book's entries of the four
in-memory caches (`chunkCache`, `indexCache`, `metaCache`,
`conversationCache`); `none` models an absent cache entry. -/
structure BookStore where
  dbChunks : List TextChunk
  dbMeta : Option BookIndexMeta
  dbBM25 : Option SerializedBM25
  dbConversations : List AIConversation
  dbMessages : List AIMessage
  chunkCache : Option (List TextChunk)
  indexCache : Option LunrIndex
  metaCache : Option BookIndexMeta
  conversationCache : Option (List AIConversation)

/-- Largest `k ≤ fuel` with `k * k ≤ n` (downward search, structurally
recursive so concrete instances reduce by kernel computation). -/
def natSqrtGo (n : ℕ) : ℕ → ℕ
  | 0 => 0
  | k + 1 => if (k + 1) * (k + 1) ≤ n then k + 1 else natSqrtGo n k

/-- Floor square root on `ℕ`: the largest `k` with `k * k ≤ n`. -/
def natSqrt (n : ℕ) : ℕ :=
  natSqrtGo n n

/-- `Math.sqrt` on the idealised rationals: the floor square root of
numerator and denominator (non-negative inputs only are ever passed; the
value is exact on perfect squares, and no theorem below depends on it
elsewhere). -/
def ratSqrt (q : ℚ) : ℚ :=
  mkRat (natSqrt q.num.toNat : ℤ) (natSqrt q.den)

/-- `cosineSimilarity` (aiStore.ts lines 15–27): zero on length mismatch or
zero denominator, otherwise `dot / (sqrt normA * sqrt normB)`. -/
def cosineSimilarity (a b : List ℚ) : ℚ :=
  if a.length ≠ b.length then 0
  else
    let dot := (a.zip b).foldl (fun s p => s + p.1 * p.2) 0
    let normA := a.foldl (fun s x => s + x * x) 0
    let normB := b.foldl (fun s x => s + x * x) 0
    let denom := ratSqrt normA * ratSqrt normB
    if denom = 0 then 0 else dot / denom

/-- Stable insertion of `x` into an already-sorted list: `x` lands before
the first element it must strictly precede, hence after any tie.  Used to
model JavaScript's `Array.prototype.sort`, which is stable: a stable sort
is uniquely determined by its comparator, so stable insertion sort gives
exactly its result. -/
def stableInsert {α : Type} (lt : α → α → Bool) (x : α) :
    List α → List α
  | [] => [x]
  | y :: ys => if lt x y then x :: y :: ys else y :: stableInsert lt x ys

/-- Stable sort by the strict precedence predicate `lt` (`lt a b` = the
comparator orders `a` strictly before `b`). -/
def stableSortBy {α : Type} (lt : α → α → Bool) (l : List α) : List α :=
  l.foldl (fun acc x => stableInsert lt x acc) []

namespace AIStore

/-- `saveMeta`: put the meta record and refresh the meta cache. -/
def saveMeta (meta : BookIndexMeta) (st : BookStore) : BookStore :=
  { st with dbMeta := some meta, metaCache := some meta }

/-- `getMeta`: serve from the cache, otherwise read the record and cache it
when present. -/
def getMeta (st : BookStore) : BookStore × Option BookIndexMeta :=
  match st.metaCache with
  | some m => (st, some m)
  | none =>
    match st.dbMeta with
    | some m => ({ st with metaCache := some m }, some m)
    | none => (st, none)

/-- `isIndexed`: meta exists and `totalChunks > 0`. -/
def isIndexed (st : BookStore) : BookStore × Bool :=
  let r := getMeta st
  match r.2 with
  | some m => (r.1, decide (0 < m.totalChunks))
  | none => (r.1, false)

/-- `put` on the `chunks` object store (keyPath `id`): replace the record
with the same id, or add the chunk. -/
def putChunk (l : List TextChunk) (c : TextChunk) : List TextChunk :=
  if l.any (fun x => x.id = c.id) then
    l.map (fun x => if x.id = c.id then c else x)
  else l ++ [c]

/-- `saveChunks`: no-op on the empty list; otherwise put every chunk in one
transaction and replace the chunk cache wholesale with the written list. -/
def saveChunks (chunks : List TextChunk) (st : BookStore) : BookStore :=
  match chunks with
  | [] => st
  | _ =>
    { st with
      dbChunks := chunks.foldl putChunk st.dbChunks
      chunkCache := some chunks }

/-- `getChunks`: serve from the cache, otherwise `getAll()` and cache. -/
def getChunks (st : BookStore) : BookStore × List TextChunk :=
  match st.chunkCache with
  | some l => (st, l)
  | none => ({ st with chunkCache := some st.dbChunks }, st.dbChunks)

/-- `getChunksForPage`: all chunks whose `pageNumber` equals the page. -/
def getChunksForPage (pageNumber : ℕ) (st : BookStore) :
    BookStore × List TextChunk :=
  let r := getChunks st
  (r.1, r.2.filter (fun c => c.pageNumber = pageNumber))

/-- `getChunksForSection`: all chunks of one section. -/
def getChunksForSection (sectionIndex : ℕ) (st : BookStore) :
    BookStore × List TextChunk :=
  let r := getChunks st
  (r.1, r.2.filter (fun c => c.sectionIndex = sectionIndex))

/-- `saveBM25Index`: build the lunr index over the chunks (`build` models the
`lunr(...)` constructor), persist its serialisation and cache the index. -/
def saveBM25Index (build : List TextChunk → LunrIndex)
    (chunks : List TextChunk) (st : BookStore) : BookStore :=
  let idx := build chunks
  { st with dbBM25 := some ⟨some idx⟩, indexCache := some idx }

/-- `loadBM25Index`: serve from the cache; otherwise read the record — absent
record or failed deserialisation yields `none`, success caches the index. -/
def loadBM25Index (st : BookStore) : BookStore × Option LunrIndex :=
  match st.indexCache with
  | some i => (st, some i)
  | none =>
    match st.dbBM25 with
    | none => (st, none)
    | some s =>
      match s.parse with
      | none => (st, none)
      | some idx => ({ st with indexCache := some idx }, some idx)

/-- The spoiler filter of `vectorSearch`/`bm25Search`:
`maxPage !== undefined && chunk.pageNumber > maxPage`. -/
def pastBound (maxPage : Option ℕ) (c : TextChunk) : Bool :=
  match maxPage with
  | some m => decide (m < c.pageNumber)
  | none => false

/-- Strict precedence given by the JavaScript comparator
`(a, b) => b.score - a.score`: `a` comes strictly before `b` exactly when
`a.score > b.score`; ties keep their original order. -/
def byScoreDesc (a b : ScoredChunk) : Bool :=
  decide (b.score < a.score)

/-- `vectorSearch`: score every cached chunk that passes the spoiler filter
and has an embedding, sort descending, take `topK`.  The source's push loop
is rendered as `filterMap` in the same order. -/
def vectorSearch (queryEmbedding : List ℚ) (topK : ℕ) (maxPage : Option ℕ)
    (st : BookStore) : BookStore × List ScoredChunk :=
  let r := getChunks st
  let scored := r.2.filterMap (fun c =>
    if pastBound maxPage c then none
    else
      c.embedding.map (fun e =>
        { toTextChunk := c
          score := cosineSimilarity queryEmbedding e
          searchMethod := SearchMethod.vector }))
  (r.1, (stableSortBy byScoreDesc scored).take topK)

/-- Lookup in `new Map(chunks.map(c => [c.id, c]))`: the last chunk with the
given id wins. -/
def lookupChunk (chunks : List TextChunk) (ref : String) : Option TextChunk :=
  (chunks.filter (fun c => c.id = ref)).getLast?

/-- The result loop of `bm25Search`: map refs back to chunks, apply the
spoiler filter, and break once `topK` results are collected (the length test
runs after each push). -/
def bm25Collect (chunks : List TextChunk) (maxPage : Option ℕ) (topK : ℕ) :
    List SearchRef → List ScoredChunk → List ScoredChunk
  | [], acc => acc
  | r :: rest, acc =>
    match lookupChunk chunks r.ref with
    | none => bm25Collect chunks maxPage topK rest acc
    | some c =>
      if pastBound maxPage c then bm25Collect chunks maxPage topK rest acc
      else
        let acc' := acc ++ [{ toTextChunk := c
                              score := r.score
                              searchMethod := SearchMethod.bm25 }]
        if topK ≤ acc'.length then acc'
        else bm25Collect chunks maxPage topK rest acc'

/-- `bm25Search`: empty when no index loads; empty when the query fails to
parse (the source catches the exception); otherwise collect up to `topK`
page-filtered hits. -/
def bm25Search (query : String) (topK : ℕ) (maxPage : Option ℕ)
    (st : BookStore) : BookStore × List ScoredChunk :=
  let ri := loadBM25Index st
  match ri.2 with
  | none => (ri.1, [])
  | some idx =>
    let rc := getChunks ri.1
    match idx.search query with
    | none => (rc.1, [])
    | some results => (rc.1, bm25Collect rc.2 maxPage topK results [])

/-- Maximum score of a result list (`Math.max(...results.map(r => r.score))`,
used only on non-empty lists; `0` for `[]` is never relied upon). -/
def maxScoreOf (l : List ScoredChunk) : ℚ :=
  match l with
  | [] => 0
  | h :: t => t.foldl (fun m r => max m r.score) h.score

/-- The `normalize` closure of `hybridSearch`: divide each score by the list
maximum and weight it; all zero when the maximum is not positive. -/
def normalizeScores (results : List ScoredChunk) (weight : ℚ) :
    List ScoredChunk :=
  if results = [] then []
  else
    let mx := maxScoreOf results
    results.map (fun r =>
      { r with score := if 0 < mx then r.score / mx * weight else 0 })

/-- Deduplication key of the fusion step: the first 100 characters of the
chunk text (`r.text.slice(0, 100)`). -/
def chunkKey (c : ScoredChunk) : String :=
  (c.text.toList.take 100).asString

/-- One step of the fusion loop over the insertion-ordered map `merged`: on a
key collision keep the stored entry but raise its score to the maximum and
mark it `hybrid`; otherwise append the candidate. -/
def mergeStep (acc : List (String × ScoredChunk)) (r : ScoredChunk) :
    List (String × ScoredChunk) :=
  let key := chunkKey r
  if acc.any (fun p => p.1 = key) then
    acc.map (fun p =>
      if p.1 = key then
        (p.1, { p.2 with
                score := max p.2.score r.score
                searchMethod := SearchMethod.hybrid })
      else p)
  else acc ++ [(key, r)]

/-- The fusion merge of `hybridSearch`: fold the weighted candidates into the
keyed map and return its values in insertion order. -/
def mergeByKey (l : List ScoredChunk) : List ScoredChunk :=
  (l.foldl mergeStep []).map (fun p => p.2)

/-- The two sub-searches of `hybridSearch`, each asked for `2k` candidates;
the vector search runs only when a query embedding is present.  Returns the
final store together with the vector and BM25 result lists. -/
def hybridParts (queryEmbedding : Option (List ℚ)) (query : String)
    (topK : ℕ) (maxPage : Option ℕ) (st : BookStore) :
    BookStore × List ScoredChunk × List ScoredChunk :=
  let rv := match queryEmbedding with
    | some e => vectorSearch e (topK * 2) maxPage st
    | none => (st, [])
  let rb := bm25Search query (topK * 2) maxPage rv.1
  (rb.1, rv.2, rb.2)

/-- The weighted candidate list of `hybridSearch`: vector results normalized
with weight 1.0, then BM25 results normalized with weight 0.8. -/
def hybridWeighted (queryEmbedding : Option (List ℚ)) (query : String)
    (topK : ℕ) (maxPage : Option ℕ) (st : BookStore) : List ScoredChunk :=
  normalizeScores (hybridParts queryEmbedding query topK maxPage st).2.1 1 ++
    normalizeScores (hybridParts queryEmbedding query topK maxPage st).2.2
      (4 / 5)

/-- `hybridSearch` (store layer): run the two sub-searches with `2k`
candidates each, normalize with weights 1.0 and 0.8, merge by the
deduplication key, sort descending, truncate to `topK`. -/
def hybridSearch (queryEmbedding : Option (List ℚ)) (query : String)
    (topK : ℕ) (maxPage : Option ℕ) (st : BookStore) :
    BookStore × List ScoredChunk :=
  ((hybridParts queryEmbedding query topK maxPage st).1,
    (stableSortBy byScoreDesc
      (mergeByKey
        (hybridWeighted queryEmbedding query topK maxPage st))).take topK)

/-- `clearBook`: clear the `chunks`, `bookMeta` and `bm25Indices` object
stores in one transaction and drop the matching caches.  Conversations,
messages and the conversation cache are untouched. -/
def clearBook (st : BookStore) : BookStore :=
  { st with
    dbChunks := []
    dbMeta := none
    dbBM25 := none
    chunkCache := none
    indexCache := none
    metaCache := none }

/-- `getConversations`: serve from the cache, otherwise `getAll()` sorted by
`updatedAt` descending, and cache the sorted list. -/
def getConversations (st : BookStore) : BookStore × List AIConversation :=
  match st.conversationCache with
  | some l => (st, l)
  | none =>
    let sorted := stableSortBy
      (fun a b : AIConversation => decide (b.updatedAt < a.updatedAt))
      st.dbConversations
    ({ st with conversationCache := some sorted }, sorted)

/-- `getMessages`: all messages of the conversation (the `conversationId`
index), sorted by `createdAt` ascending; no cache involved. -/
def getMessages (conversationId : String) (st : BookStore) :
    BookStore × List AIMessage :=
  (st,
    stableSortBy (fun a b : AIMessage => decide (a.createdAt < b.createdAt))
      (st.dbMessages.filter (fun m => m.conversationId = conversationId)))

end AIStore

namespace RagService

/-- A TOC entry of the book document: `{id, label}` with `id` the section
index the entry points at. -/
structure TocItem where
  id : ℕ
  label : String
deriving DecidableEq, Repr

/-- `getChapterTitle` (ragService.ts lines 74–80): `"Section {i+1}"` on an
empty TOC; otherwise the downward loop returns the label of the last entry
with `id ≤ sectionIndex` (`List.reverse.find?`), falling back to
`toc[0]?.label || "Section {i+1}"`. -/
def getChapterTitle (toc : List TocItem) (sectionIndex : ℕ) : String :=
  if toc.isEmpty then "Section " ++ toString (sectionIndex + 1)
  else
    match toc.reverse.find? (fun t => decide (t.id ≤ sectionIndex)) with
    | some t => t.label
    | none =>
      match toc.head? with
      | some t =>
        if t.label = "" then "Section " ++ toString (sectionIndex + 1)
        else t.label
      | none => "Section " ++ toString (sectionIndex + 1)

/-- Status of the ephemeral per-book `IndexingState`. -/
inductive IndexingStatus where
  | idle
  | indexing
  | complete
  | error
deriving DecidableEq, Repr

/-- The ephemeral indexing state registered in `indexingStates`. -/
structure IndexingState where
  status : IndexingStatus
  progress : ℕ
  chunksProcessed : ℕ
  totalChunks : ℕ
  error : Option String
deriving DecidableEq, Repr

/-- Outcome of processing one section in the chunking loop.  `err` models
`createDocument`/extraction/chunking throwing (the section is skipped);
`ok textLen chunks` gives the extracted text length and the chunks
`chunkSection` would produce (the chunker is outside the given sources). -/
inductive SectionOutcome where
  | err
  | ok (textLen : ℕ) (chunks : List TextChunk)

/-- Outcome of the bulk-embedding call (`withRetryAndTimeout(embedMany ...)`:
transport and retry policy are outside the given sources).  `aborted` models
an `AbortError`/`Indexing aborted` escaping the call; `failed` any other
permanent failure; `success` the embedding vectors in chunk order. -/
inductive EmbedOutcome where
  | aborted
  | failed
  | success (embeddings : List (List ℚ))

/-- Failure injection for the three persistence transactions: a `true` field
models the IndexedDB transaction rejecting with a `StoreError`, leaving the
store unchanged. -/
structure StoreFailures where
  chunks : Bool
  bm25 : Bool
  meta : Bool
deriving DecidableEq, Repr

/-- The three persisted record kinds, in commit order. -/
inductive WriteKind where
  | wChunks
  | wBM25
  | wMeta
deriving DecidableEq, Repr

/-- Errors `indexBook` can reject with in this model. -/
inductive IndexErr where
  | aborted
  | store (k : WriteKind)
deriving DecidableEq, Repr

/-- Result of a modelled `indexBook` call: final store, the
`indexingStates` entry for the book after the call, the successful
persistence writes in order, and the returned/thrown outcome. -/
structure IndexResult where
  store : BookStore
  entry : Option IndexingState
  writes : List WriteKind
  outcome : Except IndexErr Unit

/-- The chunking loop (ragService.ts lines 127–146): one abort read per
section, failed sections skipped, sections with fewer than 100 extracted
characters skipped, remaining chunks accumulated in order.  Returns the next
abort-read number together with the chunks. -/
def chunkPhase (abort : ℕ → Bool) :
    ℕ → List SectionOutcome → List TextChunk →
    Except IndexErr (ℕ × List TextChunk)
  | c, [], acc => Except.ok (c, acc)
  | c, s :: rest, acc =>
    if abort c then Except.error IndexErr.aborted
    else
      chunkPhase abort (c + 1) rest
        (acc ++ match s with
          | SectionOutcome.err => []
          | SectionOutcome.ok textLen chunks =>
            if textLen < 100 then [] else chunks)

/-- The chunks an abort-free chunking loop accumulates. -/
def producedChunks (sections : List SectionOutcome) : List TextChunk :=
  sections.foldl
    (fun acc s =>
      acc ++ match s with
        | SectionOutcome.err => []
        | SectionOutcome.ok textLen chunks =>
          if textLen < 100 then [] else chunks)
    []

/-- `allChunks[i].embedding = embeddings[i]` over the whole list: a missing
vector (index out of range) clears the field. -/
def assignEmbeddings (chunks : List TextChunk) (embs : List (List ℚ)) :
    List TextChunk :=
  chunks.mapIdx (fun i c => { c with embedding := embs.get? i })

/-- The persistence tail of `indexBook` (lines 262–285): chunks, then the
BM25 index, then meta, each transaction fallible; on a transaction failure
the state turns `error` and the `StoreError` is rethrown. -/
def persistPhase (build : List TextChunk → LunrIndex) (meta : BookIndexMeta)
    (sf : StoreFailures) (chunksP : List TextChunk) (base : IndexingState)
    (st : BookStore) : IndexResult :=
  if sf.chunks then
    ⟨st, some { base with status := IndexingStatus.error,
                          error := some "StoreError" },
      [], Except.error (IndexErr.store WriteKind.wChunks)⟩
  else
    let stA := AIStore.saveChunks chunksP st
    if sf.bm25 then
      ⟨stA, some { base with status := IndexingStatus.error,
                             error := some "StoreError" },
        [WriteKind.wChunks], Except.error (IndexErr.store WriteKind.wBM25)⟩
    else
      let stB := AIStore.saveBM25Index build chunksP stA
      if sf.meta then
        ⟨stB, some { base with status := IndexingStatus.error,
                               error := some "StoreError" },
          [WriteKind.wChunks, WriteKind.wBM25],
          Except.error (IndexErr.store WriteKind.wMeta)⟩
      else
        let stC := AIStore.saveMeta meta stB
        ⟨stC, some { base with status := IndexingStatus.complete,
                               progress := 100 },
          [WriteKind.wChunks, WriteKind.wBM25, WriteKind.wMeta],
          Except.ok ()⟩

/-- The error state the outer catch of `indexBook` leaves behind on
cooperative cancellation. -/
def abortedState (s : IndexingState) : IndexingState :=
  { s with status := IndexingStatus.error, error := some "Indexing aborted" }

/-- `indexBook` (ragService.ts lines 82–295), tolerant variant of the given
`src/` tree.  Inputs abstracting external collaborators: `build` the lunr
constructor, `bookTitle`/`authorName` the extracted metadata strings,
`embeddingModelName` the provider model id, `now` the `Date.now()` stamp,
`sections` the chunker outcomes, `abort` the signal, `embedOut` the bulk
embedding outcome, `sf` persistence-failure injection, `prev` the existing
`indexingStates` entry.  Mirrors: the idempotency guard; the abort reads
before chunking, per section, after chunking, after a successful embedding
call, and before persistence; the tolerant catch that proceeds without
vectors on a non-cancellation embedding failure; and the
chunks → BM25 → meta commit order. -/
def indexBook (build : List TextChunk → LunrIndex)
    (bookHash bookTitle authorName embeddingModelName : String) (now : ℕ)
    (sections : List SectionOutcome) (abort : ℕ → Bool)
    (embedOut : EmbedOutcome) (sf : StoreFailures)
    (prev : Option IndexingState) (st : BookStore) : IndexResult :=
  let ri := AIStore.isIndexed st
  if ri.2 then ⟨ri.1, prev, [], Except.ok ()⟩
  else
    let s0 : IndexingState := ⟨IndexingStatus.indexing, 0, 0, 0, none⟩
    if abort 0 then
      ⟨ri.1, some (abortedState s0), [], Except.error IndexErr.aborted⟩
    else
      match chunkPhase abort 1 sections [] with
      | Except.error _ =>
        ⟨ri.1, some (abortedState s0), [], Except.error IndexErr.aborted⟩
      | Except.ok (c1, allChunks) =>
        let n := allChunks.length
        let s1 := { s0 with totalChunks := n }
        if n = 0 then
          ⟨ri.1, some { s1 with status := IndexingStatus.complete,
                                progress := 100 },
            [], Except.ok ()⟩
        else if abort c1 then
          ⟨ri.1, some (abortedState s1), [], Except.error IndexErr.aborted⟩
        else
          let meta : BookIndexMeta :=
            ⟨bookHash, bookTitle, authorName, sections.length, n,
              embeddingModelName, now⟩
          match embedOut with
          | EmbedOutcome.aborted =>
            ⟨ri.1, some (abortedState s1), [], Except.error IndexErr.aborted⟩
          | EmbedOutcome.failed =>
            if abort (c1 + 1) then
              ⟨ri.1, some (abortedState s1), [],
                Except.error IndexErr.aborted⟩
            else persistPhase build meta sf allChunks s1 ri.1
          | EmbedOutcome.success embs =>
            if abort (c1 + 1) then
              ⟨ri.1, some (abortedState s1), [],
                Except.error IndexErr.aborted⟩
            else
              let chunksE := assignEmbeddings allChunks embs
              let s2 := { s1 with chunksProcessed := n, progress := 100 }
              if abort (c1 + 2) then
                ⟨ri.1, some (abortedState s2), [],
                  Except.error IndexErr.aborted⟩
              else persistPhase build meta sf chunksE s2 ri.1

/-- `getPageContextChunks` (ragService.ts lines 338–348): the page's chunks,
each tagged `context` with score 2.0. -/
def getPageContextChunks (pageNumber : ℕ) (st : BookStore) :
    BookStore × List ScoredChunk :=
  let r := AIStore.getChunksForPage pageNumber st
  (r.1, r.2.map (fun c =>
    { toTextChunk := c, score := 2, searchMethod := SearchMethod.context }))

/-- `clearBookIndex` (ragService.ts lines 370–374): clear the book's store
records and drop its `indexingStates` entry. -/
def clearBookIndex (st : BookStore) (_entry : Option IndexingState) :
    BookStore × Option IndexingState :=
  (AIStore.clearBook st, none)

end RagService

namespace TauriChatAdapter

/-- The retrieval merge of `createTauriAdapter.run` (TauriChatAdapter.ts
lines 92–105): push every page-context chunk recording its id as seen, then
append each hybrid-search chunk whose id has not been seen, recording it. -/
def mergeRetrieved (pageChunks searchChunks : List ScoredChunk) :
    List ScoredChunk :=
  let a := pageChunks.foldl
    (fun (acc : List ScoredChunk × List String) c =>
      (acc.1 ++ [c], acc.2 ++ [c.id]))
    ([], [])
  (searchChunks.foldl
    (fun (acc : List ScoredChunk × List String) c =>
      if acc.2.contains c.id then acc
      else (acc.1 ++ [c], acc.2 ++ [c.id]))
    a).1

end TauriChatAdapter

/-- The group of candidates in `src` whose deduplication key is `k`, in
order. -/
def entryFor (src : List ScoredChunk) (k : String) : List ScoredChunk :=
  src.filter (fun y => AIStore.chunkKey y = k)

/-- What the fusion loop guarantees for one retained entry `e` under key
`k` against the candidate list `src`: `e` carries the fields of the first
candidate of the key's group, its score is the running maximum of the
group's weighted scores, and its method is `hybrid` exactly when the group
collided (two or more members). -/
def entrySpecAt (src : List ScoredChunk) (k : String) (e : ScoredChunk) :
    Prop :=
  ∃ r, (entryFor src k).head? = some r ∧
    e = { r with
          score := AIStore.maxScoreOf (entryFor src k)
          searchMethod :=
            if 2 ≤ (entryFor src k).length then SearchMethod.hybrid
            else r.searchMethod }

/-- `entrySpecAt` instantiated at the entry's own deduplication key. -/
def mergeEntrySpec (src : List ScoredChunk) (e : ScoredChunk) : Prop :=
  entrySpecAt src (AIStore.chunkKey e) e

/-- Loop invariant of the fusion fold: every map entry is keyed by its
chunk's deduplication key and satisfies `entrySpecAt` under its key for
the processed prefix, and every processed candidate has an entry under its
key. -/
def mergeInv (processed : List ScoredChunk)
    (acc : List (String × ScoredChunk)) : Prop :=
  (∀ p ∈ acc, p.1 = AIStore.chunkKey p.2 ∧ entrySpecAt processed p.1 p.2) ∧
  (∀ r ∈ processed, ∃ p ∈ acc, p.1 = AIStore.chunkKey r)

/-- Claim C8's reading of chapter-title resolution: on an empty TOC the
title is `"Section {i+1}"`, and otherwise it is the label of the last TOC
entry whose `id ≤ i` (the last element of the filtered TOC) — presupposing
that such an entry exists. -/
def chapterTitleClaim (toc : List RagService.TocItem) (sectionIndex : ℕ)
    (title : String) : Prop :=
  (toc = [] → title = "Section " ++ toString (sectionIndex + 1)) ∧
  (toc ≠ [] →
    ∃ t, (toc.filter (fun t => t.id ≤ sectionIndex)).getLast? = some t ∧
      title = t.label)

/-- The amended chapter-title specification: as `chapterTitleClaim`, plus
the fallback the code applies when the TOC is non-empty but no entry
qualifies — the first entry's label, or `"Section {i+1}"` when that label
is empty. -/
def chapterTitleAmendedSpec (toc : List RagService.TocItem)
    (sectionIndex : ℕ) (title : String) : Prop :=
  (toc = [] → title = "Section " ++ toString (sectionIndex + 1)) ∧
  (toc ≠ [] →
    (∃ t, (toc.filter (fun t => t.id ≤ sectionIndex)).getLast? = some t ∧
        title = t.label) ∨
    (toc.filter (fun t => t.id ≤ sectionIndex) = [] ∧
      ∃ hne : toc ≠ [],
        title = if (toc.head hne).label = ""
          then "Section " ++ toString (sectionIndex + 1)
          else (toc.head hne).label))

/-- The second phase of the adapter merge: append the search chunks whose
id is not in `seen`, extending `seen` as it goes. -/
def dedupNew (seen : List String) : List ScoredChunk → List ScoredChunk
  | [] => []
  | c :: rest =>
    if seen.contains c.id then dedupNew seen rest
    else c :: dedupNew (seen ++ [c.id]) rest

/-! ## Sample data for concrete counterexamples and witnesses -/

/-- A chunk whose embedding is the one-dimensional vector `[1]`. -/
def chunkA : TextChunk :=
  ⟨"a", "bh", 0, "Ch", 0, "alpha", some [1]⟩

/-- A chunk whose embedding is the one-dimensional vector `[-1]`: its
cosine similarity with the query embedding `[1]` is `-1`. -/
def chunkB : TextChunk :=
  ⟨"b", "bh", 0, "Ch", 0, "beta", some [-1]⟩

/-- A warm store caching `chunkA` and `chunkB`, with no BM25 record. -/
def storeAB : BookStore :=
  ⟨[], none, none, [], [], some [chunkA, chunkB], none, none, none⟩

/-- A vector-search candidate carrying `chunkA`. -/
def sampleV : ScoredChunk :=
  ⟨chunkA, 1, SearchMethod.vector⟩

/-- A BM25 candidate over a chunk sharing `chunkA`'s text, hence its
deduplication key. -/
def sampleB : ScoredChunk :=
  ⟨⟨"a2", "bh", 0, "Ch", 0, "alpha", none⟩, 1 / 2, SearchMethod.bm25⟩

/-- A completely empty, cold store. -/
def emptyStore : BookStore :=
  ⟨[], none, none, [], [], none, none, none, none⟩

/-- A store whose persisted BM25 record fails to deserialize. -/
def corruptStore : BookStore :=
  { emptyStore with dbBM25 := some ⟨none⟩ }

/-- An index on which every query fails to parse. -/
def failIndex : LunrIndex :=
  ⟨fun _ => none⟩

/-- A store whose cached BM25 index rejects every query. -/
def failStore : BookStore :=
  { emptyStore with indexCache := some failIndex }

/-- A chunker-produced chunk: no embedding assigned yet. -/
def chunkN : TextChunk :=
  ⟨"n", "bh", 0, "Ch", 0, "ntext", none⟩

/-- The meta value any read observes: the cache entry when warm, the
persisted record otherwise. -/
def metaView (st : BookStore) : Option BookIndexMeta :=
  match st.metaCache with
  | some m => some m
  | none => st.dbMeta

/-- The indexed flag determined by `metaView`. -/
def indexedView (st : BookStore) : Bool :=
  match metaView st with
  | some m => decide (0 < m.totalChunks)
  | none => false

/-- A lunr constructor stub for concrete witnesses: it builds an index
rejecting every query. -/
def trivialBuild : List TextChunk → LunrIndex :=
  fun _ => ⟨fun _ => none⟩

/-- A meta record marking one chunk indexed. -/
def meta1 : BookIndexMeta :=
  ⟨"bh", "T", "A", 1, 1, "m", 0⟩

/-- A store whose book is indexed on disk but whose meta cache is cold. -/
def indexedColdStore : BookStore :=
  ⟨[], some meta1, none, [], [], none, none, none, none⟩

/-- Claim C5's guarantee about one `indexBook` run against initial store
`st`: the successful writes are a prefix of the commit order
chunks → BM25 → meta, and on any error outcome the meta record was not
written (neither as a write event nor in the store), the registered state
is `error`, and a previously-unindexed book still reads as unindexed. -/
def C5Prop (st : BookStore) (res : RagService.IndexResult) : Prop :=
  res.writes <+: [RagService.WriteKind.wChunks, RagService.WriteKind.wBM25,
    RagService.WriteKind.wMeta] ∧
  ∀ e, res.outcome = Except.error e →
    RagService.WriteKind.wMeta ∉ res.writes ∧
    res.store.dbMeta = st.dbMeta ∧
    (∃ s, res.entry = some s ∧
      s.status = RagService.IndexingStatus.error) ∧
    ((AIStore.isIndexed st).2 = false →
      (AIStore.isIndexed res.store).2 = false)

/-! ## Helper lemmas -/

theorem mem_stableInsert {α : Type} {lt : α → α → Bool} {x a : α} :
    ∀ {l : List α}, a ∈ stableInsert lt x l ↔ a = x ∨ a ∈ l := by
  intro l
  induction l with
  | nil => simp [stableInsert]
  | cons y ys ih =>
    unfold stableInsert
    by_cases hlt : lt x y = true
    · rw [if_pos hlt]
      simp
    · rw [if_neg hlt]
      simp only [List.mem_cons, ih]
      tauto

theorem mem_stableSortBy_fold {α : Type} {lt : α → α → Bool} {a : α} :
    ∀ (l acc : List α),
      a ∈ l.foldl (fun acc x => stableInsert lt x acc) acc ↔
        a ∈ acc ∨ a ∈ l := by
  intro l
  induction l with
  | nil => simp
  | cons y ys ih =>
    intro acc
    rw [List.foldl_cons, ih, mem_stableInsert]
    simp only [List.mem_cons]
    tauto

theorem mem_stableSortBy {α : Type} {lt : α → α → Bool} {a : α}
    {l : List α} : a ∈ stableSortBy lt l ↔ a ∈ l := by
  unfold stableSortBy
  rw [mem_stableSortBy_fold]
  simp

theorem pairwise_stableInsert {α : Type} {lt : α → α → Bool}
    {R : α → α → Prop} (hb1 : ∀ a b, lt a b = true → R a b)
    (hb2 : ∀ a b, ¬ lt a b = true → R b a)
    (htrans : ∀ {a b c : α}, R a b → R b c → R a c) (x : α) :
    ∀ {l : List α}, l.Pairwise R → (stableInsert lt x l).Pairwise R := by
  intro l
  induction l with
  | nil =>
    intro _
    simp [stableInsert]
  | cons y ys ih =>
    intro hp
    obtain ⟨hy, hys⟩ := List.pairwise_cons.mp hp
    unfold stableInsert
    by_cases hlt : lt x y = true
    · rw [if_pos hlt]
      refine List.pairwise_cons.mpr ⟨?_, hp⟩
      intro z hz
      rcases List.mem_cons.mp hz with rfl | hzys
      · exact hb1 x z hlt
      · exact htrans (hb1 x y hlt) (hy z hzys)
    · rw [if_neg hlt]
      refine List.pairwise_cons.mpr ⟨?_, ih hys⟩
      intro z hz
      rcases mem_stableInsert.mp hz with rfl | hzys
      · exact hb2 z y hlt
      · exact hy z hzys

theorem pairwise_stableSortBy {α : Type} {lt : α → α → Bool}
    {R : α → α → Prop} (hb1 : ∀ a b, lt a b = true → R a b)
    (hb2 : ∀ a b, ¬ lt a b = true → R b a)
    (htrans : ∀ {a b c : α}, R a b → R b c → R a c) (l : List α) :
    (stableSortBy lt l).Pairwise R := by
  unfold stableSortBy
  have hgen : ∀ (l acc : List α), acc.Pairwise R →
      (l.foldl (fun acc x => stableInsert lt x acc) acc).Pairwise R := by
    intro l
    induction l with
    | nil => intro acc h; exact h
    | cons y ys ih =>
      intro acc h
      exact ih _ (pairwise_stableInsert hb1 hb2 htrans y h)
  exact hgen l [] List.Pairwise.nil

theorem foldl_max_init_le (t : List ScoredChunk) (a : ℚ) :
    a ≤ t.foldl (fun m r => max m r.score) a := by
  induction t generalizing a with
  | nil => exact le_refl a
  | cons h t ih => exact le_trans (le_max_left a h.score) (ih _)

theorem mem_le_foldl_max {r : ScoredChunk} {t : List ScoredChunk} (a : ℚ)
    (hr : r ∈ t) : r.score ≤ t.foldl (fun m x => max m x.score) a := by
  induction t generalizing a with
  | nil => cases hr
  | cons h t ih =>
    rcases List.mem_cons.mp hr with rfl | hmem
    · exact le_trans (le_max_right a r.score) (foldl_max_init_le t _)
    · exact ih _ hmem

theorem le_maxScoreOf {r : ScoredChunk} {l : List ScoredChunk} (hr : r ∈ l) :
    r.score ≤ AIStore.maxScoreOf l := by
  cases l with
  | nil => cases hr
  | cons h t =>
    rcases List.mem_cons.mp hr with rfl | hmem
    · exact foldl_max_init_le t _
    · exact mem_le_foldl_max _ hmem

theorem foldl_max_le {t : List ScoredChunk} {a B : ℚ} (ha : a ≤ B)
    (hB : ∀ r ∈ t, r.score ≤ B) :
    t.foldl (fun m x => max m x.score) a ≤ B := by
  induction t generalizing a with
  | nil => exact ha
  | cons h t ih =>
    exact ih (max_le ha (hB h (List.mem_cons_self h t)))
      (fun r hr => hB r (List.mem_cons_of_mem h hr))

theorem maxScoreOf_le {l : List ScoredChunk} {B : ℚ} (hne : l ≠ [])
    (hB : ∀ r ∈ l, r.score ≤ B) : AIStore.maxScoreOf l ≤ B := by
  cases l with
  | nil => exact absurd rfl hne
  | cons h t =>
    exact foldl_max_le (hB h (List.mem_cons_self h t))
      (fun r hr => hB r (List.mem_cons_of_mem h hr))

theorem normalizeScores_mem {l : List ScoredChunk} {w : ℚ} {c : ScoredChunk}
    (hc : c ∈ AIStore.normalizeScores l w) :
    ∃ r ∈ l, c.toTextChunk = r.toTextChunk := by
  cases l with
  | nil => simp [AIStore.normalizeScores] at hc
  | cons h t =>
    rw [AIStore.normalizeScores, if_neg (List.cons_ne_nil h t)] at hc
    obtain ⟨r, hr, hre⟩ := List.mem_map.mp hc
    exact ⟨r, hr, by rw [← hre]⟩

theorem normalizeScores_score_le {l : List ScoredChunk} {w : ℚ} (hw : 0 ≤ w)
    {c : ScoredChunk} (hc : c ∈ AIStore.normalizeScores l w) : c.score ≤ w := by
  cases l with
  | nil => simp [AIStore.normalizeScores] at hc
  | cons h t =>
    rw [AIStore.normalizeScores, if_neg (List.cons_ne_nil h t)] at hc
    obtain ⟨r, hr, hre⟩ := List.mem_map.mp hc
    by_cases hmx : 0 < AIStore.maxScoreOf (h :: t)
    · have hsc : c.score = r.score / AIStore.maxScoreOf (h :: t) * w := by
        rw [← hre]; simp [hmx]
      rw [hsc]
      calc r.score / AIStore.maxScoreOf (h :: t) * w ≤ 1 * w := by
            exact mul_le_mul_of_nonneg_right
              ((div_le_one hmx).mpr (le_maxScoreOf hr)) hw
        _ = w := one_mul w
    · have hsc : c.score = 0 := by rw [← hre]; simp [hmx]
      rw [hsc]; exact hw

theorem head?_append_left {α : Type} {l : List α} (hne : l ≠ [])
    (l' : List α) : (l ++ l').head? = l.head? := by
  cases l with
  | nil => exact absurd rfl hne
  | cons h t => rfl

set_option maxRecDepth 8192 in
theorem maxScoreOf_append {l : List ScoredChunk} (hne : l ≠ [])
    (x : ScoredChunk) :
    AIStore.maxScoreOf (l ++ [x]) = max (AIStore.maxScoreOf l) x.score := by
  cases l with
  | nil => exact absurd rfl hne
  | cons h t =>
    show (t ++ [x]).foldl (fun m r => max m r.score) h.score
      = max (t.foldl (fun m r => max m r.score) h.score) x.score
    rw [List.foldl_append]
    rfl

theorem chunkKey_update (c : ScoredChunk) (s : ℚ) (m : SearchMethod) :
    AIStore.chunkKey { c with score := s, searchMethod := m }
      = AIStore.chunkKey c := rfl



theorem entryFor_append_hit {x : ScoredChunk} {k : String}
    (h : AIStore.chunkKey x = k) (src : List ScoredChunk) :
    entryFor (src ++ [x]) k = entryFor src k ++ [x] := by
  unfold entryFor
  rw [List.filter_append]
  simp [h]

theorem entryFor_append_miss {x : ScoredChunk} {k : String}
    (h : ¬ AIStore.chunkKey x = k) (src : List ScoredChunk) :
    entryFor (src ++ [x]) k = entryFor src k := by
  unfold entryFor
  rw [List.filter_append]
  simp [h]

theorem entryFor_singleton_spec {x : ScoredChunk} {k : String}
    (hk : AIStore.chunkKey x = k) {src : List ScoredChunk}
    (hsrc : entryFor src k = []) : entrySpecAt (src ++ [x]) k x := by
  refine ⟨x, ?_, ?_⟩
  · rw [entryFor_append_hit hk, hsrc]
    rfl
  · rw [entryFor_append_hit hk, hsrc]
    simp [AIStore.maxScoreOf]

theorem mergeInv_nil : mergeInv [] [] := by
  constructor
  · intro p hp; cases hp
  · intro r hr; cases hr

theorem mergeInv_step {processed : List ScoredChunk}
    {acc : List (String × ScoredChunk)} (h : mergeInv processed acc)
    (x : ScoredChunk) :
    mergeInv (processed ++ [x]) (AIStore.mergeStep acc x) := by
  obtain ⟨hent, hcomp⟩ := h
  unfold AIStore.mergeStep
  by_cases hany : acc.any (fun p => decide (p.1 = AIStore.chunkKey x)) = true
  · rw [if_pos hany]
    constructor
    · intro p' hp'
      obtain ⟨p, hp, hpe⟩ := List.mem_map.mp hp'
      obtain ⟨hkey, ⟨r, hhead, heq⟩⟩ := hent p hp
      by_cases hk : p.1 = AIStore.chunkKey x
      · rw [if_pos hk] at hpe
        subst hpe
        have hgrpne : entryFor processed p.1 ≠ [] := by
          intro h0
          rw [h0] at hhead
          cases hhead
        constructor
        · show p.1 = AIStore.chunkKey
            { p.2 with
              score := max p.2.score x.score
              searchMethod := SearchMethod.hybrid }
          rw [chunkKey_update]
          exact hkey
        · refine ⟨r, ?_, ?_⟩
          · show (entryFor (processed ++ [x]) p.1).head? = some r
            rw [entryFor_append_hit hk.symm, head?_append_left hgrpne]
            exact hhead
          · show ({ p.2 with
              score := max p.2.score x.score
              searchMethod := SearchMethod.hybrid } : ScoredChunk) = _
            rw [entryFor_append_hit hk.symm, maxScoreOf_append hgrpne]
            have hlen : 2 ≤ (entryFor processed p.1 ++ [x]).length := by
              rw [List.length_append, List.length_singleton]
              have h1 : 1 ≤ (entryFor processed p.1).length :=
                Nat.one_le_iff_ne_zero.mpr
                  (fun h0 => hgrpne (List.length_eq_zero.mp h0))
              omega
            rw [if_pos hlen, heq]
      · rw [if_neg hk] at hpe
        subst hpe
        refine ⟨hkey, r, ?_, ?_⟩
        · show (entryFor (processed ++ [x]) p.1).head? = some r
          rw [entryFor_append_miss (fun hc => hk hc.symm)]
          exact hhead
        · rw [entryFor_append_miss (fun hc => hk hc.symm)]
          exact heq
    · intro r hr
      rcases List.mem_append.mp hr with hrp | hrx
      · obtain ⟨p, hp, hkeq⟩ := hcomp r hrp
        refine ⟨_, List.mem_map.mpr ⟨p, hp, rfl⟩, ?_⟩
        by_cases hk : p.1 = AIStore.chunkKey x
        · rw [if_pos hk]; exact hkeq
        · rw [if_neg hk]; exact hkeq
      · obtain ⟨p, hp, hdec⟩ := List.any_eq_true.mp hany
        have hk : p.1 = AIStore.chunkKey x := of_decide_eq_true hdec
        have hrx' : r = x := List.mem_singleton.mp hrx
        refine ⟨_, List.mem_map.mpr ⟨p, hp, rfl⟩, ?_⟩
        rw [if_pos hk, hrx']
        exact hk
  · rw [if_neg hany]
    have hnone : ∀ p ∈ acc, ¬ p.1 = AIStore.chunkKey x := by
      intro p hp hcon
      exact hany (List.any_eq_true.mpr ⟨p, hp, decide_eq_true hcon⟩)
    constructor
    · intro p' hp'
      rcases List.mem_append.mp hp' with hpold | hpnew
      · obtain ⟨hkey, ⟨r, hhead, heq⟩⟩ := hent p' hpold
        have hkk : ¬ AIStore.chunkKey x = p'.1 := by
          intro hcon
          exact hnone p' hpold hcon.symm
        refine ⟨hkey, r, ?_, ?_⟩
        · show (entryFor (processed ++ [x]) p'.1).head? = some r
          rw [entryFor_append_miss hkk]
          exact hhead
        · rw [entryFor_append_miss hkk]
          exact heq
      · have hpe : p' = (AIStore.chunkKey x, x) := List.mem_singleton.mp hpnew
        subst hpe
        have hprocnone : entryFor processed (AIStore.chunkKey x) = [] := by
          unfold entryFor
          rw [List.filter_eq_nil_iff]
          intro a ha hcon
          obtain ⟨p, hp, hkeq⟩ := hcomp a ha
          exact hnone p hp (hkeq.trans (of_decide_eq_true hcon))
        exact ⟨rfl, entryFor_singleton_spec rfl hprocnone⟩
    · intro r hr
      rcases List.mem_append.mp hr with hrp | hrx
      · obtain ⟨p, hp, hkeq⟩ := hcomp r hrp
        exact ⟨p, List.mem_append_left _ hp, hkeq⟩
      · have hrx' : r = x := List.mem_singleton.mp hrx
        exact ⟨(AIStore.chunkKey x, x),
          List.mem_append_right _ (List.mem_singleton_self _),
          by rw [hrx']⟩

theorem mergeInv_foldl :
    ∀ (l processed : List ScoredChunk)
      (acc : List (String × ScoredChunk)), mergeInv processed acc →
      mergeInv (processed ++ l) (l.foldl AIStore.mergeStep acc)
  | [], processed, acc, h => by simpa using h
  | x :: rest, processed, acc, h => by
    have hrec := mergeInv_foldl rest (processed ++ [x])
      (AIStore.mergeStep acc x) (mergeInv_step h x)
    simpa using hrec

theorem mergeByKey_spec {l : List ScoredChunk} {e : ScoredChunk}
    (he : e ∈ AIStore.mergeByKey l) : mergeEntrySpec l e := by
  unfold AIStore.mergeByKey at he
  obtain ⟨p, hp, hpe⟩ := List.mem_map.mp he
  obtain ⟨hkey, hspec⟩ := (mergeInv_foldl l [] [] mergeInv_nil).1 p hp
  rw [← hpe]
  show entrySpecAt l (AIStore.chunkKey p.2) p.2
  rw [← hkey]
  simpa using hspec

theorem entryFor_subset {src : List ScoredChunk} {k : String}
    {r : ScoredChunk} (h : r ∈ entryFor src k) : r ∈ src :=
  (List.mem_filter.mp h).1

theorem mergeByKey_from {l : List ScoredChunk} {e : ScoredChunk}
    (he : e ∈ AIStore.mergeByKey l) :
    ∃ r ∈ l, e.toTextChunk = r.toTextChunk := by
  obtain ⟨r, hhead, heq⟩ := mergeByKey_spec he
  have hrf : r ∈ entryFor l (AIStore.chunkKey e) :=
    List.mem_of_mem_head? (Option.mem_def.mpr hhead)
  exact ⟨r, entryFor_subset hrf, by rw [heq]⟩

theorem mergeByKey_score_le {l : List ScoredChunk} {B : ℚ}
    (hB : ∀ r ∈ l, r.score ≤ B) {e : ScoredChunk}
    (he : e ∈ AIStore.mergeByKey l) : e.score ≤ B := by
  obtain ⟨r, hhead, heq⟩ := mergeByKey_spec he
  have hne : entryFor l (AIStore.chunkKey e) ≠ [] := by
    intro h0
    rw [h0] at hhead
    cases hhead
  have hsc := congrArg ScoredChunk.score heq
  rw [hsc]
  show AIStore.maxScoreOf (entryFor l (AIStore.chunkKey e)) ≤ B
  exact maxScoreOf_le hne (fun x hx => hB x (entryFor_subset hx))

theorem pastBound_false {m : ℕ} {c : TextChunk}
    (h : ¬ AIStore.pastBound (some m) c = true) : c.pageNumber ≤ m := by
  unfold AIStore.pastBound at h
  simpa using h

theorem vectorSearch_mem {qe : List ℚ} {k : ℕ} {mp : Option ℕ}
    {st : BookStore} {c : ScoredChunk}
    (hc : c ∈ (AIStore.vectorSearch qe k mp st).2) :
    ∃ x ∈ (AIStore.getChunks st).2,
      ¬ AIStore.pastBound mp x = true ∧ c.toTextChunk = x := by
  simp only [AIStore.vectorSearch] at hc
  have hc1 := mem_stableSortBy.mp (List.mem_of_mem_take hc)
  obtain ⟨x, hx, hfx⟩ := List.mem_filterMap.mp hc1
  by_cases hpb : AIStore.pastBound mp x = true
  · rw [if_pos hpb] at hfx
    cases hfx
  · rw [if_neg hpb] at hfx
    obtain ⟨e, _, hce⟩ := Option.map_eq_some'.mp hfx
    exact ⟨x, hx, hpb, by rw [← hce]⟩

theorem vectorSearch_pages {qe : List ℚ} {k m : ℕ} {st : BookStore}
    {c : ScoredChunk} (hc : c ∈ (AIStore.vectorSearch qe k (some m) st).2) :
    c.pageNumber ≤ m := by
  obtain ⟨x, _, hnb, hct⟩ := vectorSearch_mem hc
  have : c.pageNumber = x.pageNumber := by rw [show c.pageNumber = c.toTextChunk.pageNumber from rfl, hct]
  rw [this]
  exact pastBound_false hnb

theorem lookupChunk_mem {chunks : List TextChunk} {ref : String}
    {c : TextChunk} (h : AIStore.lookupChunk chunks ref = some c) :
    c ∈ chunks := by
  unfold AIStore.lookupChunk at h
  have := List.mem_of_getLast?_eq_some h
  exact (List.mem_filter.mp this).1

theorem bm25Collect_mem {chunks : List TextChunk} {mp : Option ℕ} {k : ℕ} :
    ∀ (refs : List SearchRef) (acc : List ScoredChunk),
      (∀ s ∈ acc, ∃ x ∈ chunks,
        ¬ AIStore.pastBound mp x = true ∧ s.toTextChunk = x) →
      ∀ s ∈ AIStore.bm25Collect chunks mp k refs acc,
        ∃ x ∈ chunks, ¬ AIStore.pastBound mp x = true ∧ s.toTextChunk = x := by
  intro refs
  induction refs with
  | nil =>
    intro acc hacc s hs
    exact hacc s hs
  | cons r rest ih =>
    intro acc hacc s hs
    unfold AIStore.bm25Collect at hs
    cases hlk : AIStore.lookupChunk chunks r.ref with
    | none =>
      rw [hlk] at hs
      exact ih acc hacc s hs
    | some c =>
      rw [hlk] at hs
      dsimp only at hs
      by_cases hpb : AIStore.pastBound mp c = true
      · rw [if_pos hpb] at hs
        exact ih acc hacc s hs
      · rw [if_neg hpb] at hs
        have hacc' : ∀ s' ∈ acc ++
            [(⟨c, r.score, SearchMethod.bm25⟩ : ScoredChunk)],
            ∃ x ∈ chunks,
              ¬ AIStore.pastBound mp x = true ∧ s'.toTextChunk = x := by
          intro s' hs'
          rcases List.mem_append.mp hs' with hold | hnew
          · exact hacc s' hold
          · have hse : s' = (⟨c, r.score, SearchMethod.bm25⟩ : ScoredChunk) :=
              List.mem_singleton.mp hnew
            exact ⟨c, lookupChunk_mem hlk, hpb, by rw [hse]⟩
        split at hs
        · exact hacc' s hs
        · exact ih _ hacc' s hs

theorem bm25Search_mem {q : String} {k : ℕ} {mp : Option ℕ}
    {st : BookStore} {s : ScoredChunk}
    (hs : s ∈ (AIStore.bm25Search q k mp st).2) :
    ∃ x, ¬ AIStore.pastBound mp x = true ∧ s.toTextChunk = x := by
  simp only [AIStore.bm25Search] at hs
  split at hs
  · cases hs
  · split at hs
    · cases hs
    · obtain ⟨x, _, hx⟩ := bm25Collect_mem _ [] (by intro s hs'; cases hs') s hs
      exact ⟨x, hx⟩

theorem bm25Search_pages {q : String} {k m : ℕ} {st : BookStore}
    {s : ScoredChunk} (hs : s ∈ (AIStore.bm25Search q k (some m) st).2) :
    s.pageNumber ≤ m := by
  obtain ⟨x, hnb, hct⟩ := bm25Search_mem hs
  have : s.pageNumber = x.pageNumber := by rw [show s.pageNumber = s.toTextChunk.pageNumber from rfl, hct]
  rw [this]
  exact pastBound_false hnb

theorem hybridParts_fst_pages {qe : Option (List ℚ)} {q : String} {k m : ℕ}
    {st : BookStore} {r : ScoredChunk}
    (hr : r ∈ (AIStore.hybridParts qe q k (some m) st).2.1) :
    r.pageNumber ≤ m := by
  cases qe with
  | none => simp [AIStore.hybridParts] at hr
  | some e =>
    simp only [AIStore.hybridParts] at hr
    exact vectorSearch_pages hr

theorem hybridParts_snd_pages {qe : Option (List ℚ)} {q : String} {k m : ℕ}
    {st : BookStore} {r : ScoredChunk}
    (hr : r ∈ (AIStore.hybridParts qe q k (some m) st).2.2) :
    r.pageNumber ≤ m := by
  cases qe with
  | none =>
    simp only [AIStore.hybridParts] at hr
    exact bm25Search_pages hr
  | some e =>
    simp only [AIStore.hybridParts] at hr
    exact bm25Search_pages hr

theorem hybridWeighted_pages {qe : Option (List ℚ)} {q : String} {k m : ℕ}
    {st : BookStore} {c : ScoredChunk}
    (hc : c ∈ AIStore.hybridWeighted qe q k (some m) st) :
    c.pageNumber ≤ m := by
  unfold AIStore.hybridWeighted at hc
  rcases List.mem_append.mp hc with hv | hb
  · obtain ⟨r, hr, hct⟩ := normalizeScores_mem hv
    have : c.pageNumber = r.pageNumber := by rw [show c.pageNumber = c.toTextChunk.pageNumber from rfl, hct]
    rw [this]
    exact hybridParts_fst_pages hr
  · obtain ⟨r, hr, hct⟩ := normalizeScores_mem hb
    have : c.pageNumber = r.pageNumber := by rw [show c.pageNumber = c.toTextChunk.pageNumber from rfl, hct]
    rw [this]
    exact hybridParts_snd_pages hr

theorem hybridSearch_pages {qe : Option (List ℚ)} {q : String} {k m : ℕ}
    {st : BookStore} {c : ScoredChunk}
    (hc : c ∈ (AIStore.hybridSearch qe q k (some m) st).2) :
    c.pageNumber ≤ m := by
  simp only [AIStore.hybridSearch] at hc
  have hc1 := mem_stableSortBy.mp (List.mem_of_mem_take hc)
  obtain ⟨r, hr, hct⟩ := mergeByKey_from hc1
  have : c.pageNumber = r.pageNumber := by rw [show c.pageNumber = c.toTextChunk.pageNumber from rfl, hct]
  rw [this]
  exact hybridWeighted_pages hr

/-- C1: with a page bound `maxPage = m` provided, `AIStore.hybridSearch`
returns at most `k` scored chunks, each with `pageNumber ≤ m`, and every
chunk returned by `vectorSearch` or `bm25Search` also has
`pageNumber ≤ m`.  (Proved for every `k`, which covers every positive
`k`.) -/
theorem claim_C1 (st : BookStore) (qe : Option (List ℚ)) (e : List ℚ)
    (q : String) (k m : ℕ) :
    (AIStore.hybridSearch qe q k (some m) st).2.length ≤ k ∧
    ((AIStore.hybridSearch qe q k (some m) st).2.all
      (fun c => decide (c.pageNumber ≤ m))) = true ∧
    ((AIStore.vectorSearch e k (some m) st).2.all
      (fun c => decide (c.pageNumber ≤ m))) = true ∧
    ((AIStore.bm25Search q k (some m) st).2.all
      (fun c => decide (c.pageNumber ≤ m))) = true := by
  refine ⟨?_, ?_, ?_, ?_⟩
  · simp only [AIStore.hybridSearch]
    rw [List.length_take]
    exact min_le_left _ _
  · exact List.all_eq_true.mpr
      (fun c hc => decide_eq_true (hybridSearch_pages hc))
  · exact List.all_eq_true.mpr
      (fun c hc => decide_eq_true (vectorSearch_pages hc))
  · exact List.all_eq_true.mpr
      (fun c hc => decide_eq_true (bm25Search_pages hc))

theorem hybridWeighted_score_le {qe : Option (List ℚ)} {q : String}
    {k : ℕ} {mp : Option ℕ} {st : BookStore} {r : ScoredChunk}
    (hr : r ∈ AIStore.hybridWeighted qe q k mp st) : r.score ≤ 1 := by
  unfold AIStore.hybridWeighted at hr
  rcases List.mem_append.mp hr with h1 | h2
  · exact normalizeScores_score_le (by norm_num) h1
  · exact le_trans (normalizeScores_score_le (by norm_num) h2) (by norm_num)

theorem hybridSearch_score_le {qe : Option (List ℚ)} {q : String} {k : ℕ}
    {mp : Option ℕ} {st : BookStore} {c : ScoredChunk}
    (hc : c ∈ (AIStore.hybridSearch qe q k mp st).2) : c.score ≤ 1 := by
  simp only [AIStore.hybridSearch] at hc
  exact mergeByKey_score_le (fun r hr => hybridWeighted_score_le hr)
    (mem_stableSortBy.mp (List.mem_of_mem_take hc))

theorem getPageContextChunks_score {p : ℕ} {st : BookStore}
    {c : ScoredChunk} (hc : c ∈ (RagService.getPageContextChunks p st).2) :
    c.score = 2 := by
  simp only [RagService.getPageContextChunks] at hc
  obtain ⟨x, _, hxe⟩ := List.mem_map.mp hc
  rw [← hxe]

/-- C2 (amended): per-list normalization bounds every weighted score by its
weight (1.0 for vector, 0.8 for BM25) — scores can be negative when the
cosine similarity is negative, so the lower bound 0 of the original claim
does not hold — hence every fused score of `hybridSearch` is at most 1;
every chunk produced by `getPageContextChunks` has score exactly 2.0 and
therefore strictly exceeds every fused hybrid score. -/
theorem claim_C2 :
    (∀ l : List ScoredChunk,
      ∀ c ∈ AIStore.normalizeScores l 1, c.score ≤ 1) ∧
    (∀ l : List ScoredChunk,
      ∀ c ∈ AIStore.normalizeScores l (4 / 5), c.score ≤ 4 / 5) ∧
    (∀ (st : BookStore) (qe : Option (List ℚ)) (q : String) (k : ℕ)
        (mp : Option ℕ),
      ∀ c ∈ (AIStore.hybridSearch qe q k mp st).2, c.score ≤ 1) ∧
    (∀ (st : BookStore) (p : ℕ),
      ∀ c ∈ (RagService.getPageContextChunks p st).2, c.score = 2) ∧
    (∀ (st st' : BookStore) (qe : Option (List ℚ)) (q : String) (k p : ℕ)
        (mp : Option ℕ),
      ∀ c ∈ (AIStore.hybridSearch qe q k mp st).2,
        ∀ c' ∈ (RagService.getPageContextChunks p st').2,
          c.score < c'.score) := by
  refine ⟨?_, ?_, ?_, ?_, ?_⟩
  · exact fun l c hc => normalizeScores_score_le (by norm_num) hc
  · exact fun l c hc => normalizeScores_score_le (by norm_num) hc
  · exact fun st qe q k mp c hc => hybridSearch_score_le hc
  · exact fun st p c hc => getPageContextChunks_score hc
  · intro st st' qe q k p mp c hc c' hc'
    rw [getPageContextChunks_score hc']
    exact lt_of_le_of_lt (hybridSearch_score_le hc) (by norm_num)

/-- C3: the fusion step merges candidates under the deduplication key (the
first 100 characters of the text); a retained entry's score is the running
maximum of its key group's weighted scores and its method becomes `hybrid`
exactly on a collision (`mergeEntrySpec`); and `hybridSearch` is the merged
list sorted by score descending (`Pairwise`) and truncated to `k`. -/
theorem claim_C3 :
    (∀ l : List ScoredChunk,
      ∀ e ∈ AIStore.mergeByKey l, mergeEntrySpec l e) ∧
    (∀ (qe : Option (List ℚ)) (q : String) (k : ℕ) (mp : Option ℕ)
        (st : BookStore),
      (AIStore.hybridSearch qe q k mp st).2.Pairwise
        (fun a b => b.score ≤ a.score) ∧
      (AIStore.hybridSearch qe q k mp st).2
        = (stableSortBy AIStore.byScoreDesc
            (AIStore.mergeByKey
              (AIStore.hybridWeighted qe q k mp st))).take k) := by
  constructor
  · exact fun l e he => mergeByKey_spec he
  · intro qe q k mp st
    constructor
    · have hsorted : (stableSortBy AIStore.byScoreDesc
          (AIStore.mergeByKey
            (AIStore.hybridWeighted qe q k mp st))).Pairwise
          (fun a b : ScoredChunk => b.score ≤ a.score) := by
        refine pairwise_stableSortBy ?_ ?_ ?_ _
        · intro a b hab
          exact le_of_lt (of_decide_eq_true hab)
        · intro a b hab
          exact le_of_not_lt (fun hc => hab (decide_eq_true hc))
        · intro a b c h1 h2
          exact le_trans h2 h1
      exact hsorted.sublist (List.take_sublist _ _)
    · rfl

theorem find?_reverse_eq_getLast?_filter {α : Type} (p : α → Bool) :
    ∀ l : List α, l.reverse.find? p = (l.filter p).getLast? := by
  intro l
  induction l with
  | nil => rfl
  | cons a t ih =>
    rw [List.reverse_cons, List.find?_append, ih]
    cases hpa : p a with
    | false =>
      rw [List.filter_cons_of_neg (by simp [hpa])]
      simp [List.find?_cons, hpa]
    | true =>
      rw [List.filter_cons_of_pos (by simp [hpa])]
      simp only [List.find?_cons, hpa, List.find?_nil]
      cases h : (t.filter p) with
      | nil => simp
      | cons b bs =>
        simp only [List.getLast?_cons_cons]
        cases hbl : (b :: bs).getLast? with
        | none => exact absurd hbl (by simp)
        | some x => rfl

/-- C8 (amended): the resolved chapter title is the label of the last TOC
entry whose `sectionId ≤ i`; when the TOC is empty it is `"Section {i+1}"`;
and when the TOC is non-empty but no entry has `sectionId ≤ i`, it falls
back to the first entry's label, or `"Section {i+1}"` when that label is
empty. -/
theorem claim_C8 (toc : List RagService.TocItem) (i : ℕ) :
    chapterTitleAmendedSpec toc i (RagService.getChapterTitle toc i) := by
  constructor
  · intro h
    subst h
    rfl
  · intro hne
    unfold RagService.getChapterTitle
    rw [if_neg (by simpa using hne)]
    rw [find?_reverse_eq_getLast?_filter]
    cases hlast : (toc.filter (fun t => decide (t.id ≤ i))).getLast? with
    | some t => exact Or.inl ⟨t, rfl, rfl⟩
    | none =>
      refine Or.inr ⟨List.getLast?_eq_none_iff.mp hlast, hne, ?_⟩
      cases toc with
      | nil => exact absurd rfl hne
      | cons h t => rfl

/-- C9: `bm25Search` returns the empty list whenever no BM25 record is
persisted, whenever the persisted record fails to deserialize, and
whenever the loaded index fails to parse the query (the model is total, so
no exception can escape). -/
theorem claim_C9 (q : String) (k : ℕ) (mp : Option ℕ) (st : BookStore) :
    (st.indexCache = none → st.dbBM25 = none →
      (AIStore.bm25Search q k mp st).2 = []) ∧
    (∀ sb, st.indexCache = none → st.dbBM25 = some sb → sb.parse = none →
      (AIStore.bm25Search q k mp st).2 = []) ∧
    (∀ idx, (AIStore.loadBM25Index st).2 = some idx → idx.search q = none →
      (AIStore.bm25Search q k mp st).2 = []) := by
  refine ⟨?_, ?_, ?_⟩
  · intro h1 h2
    simp [AIStore.bm25Search, AIStore.loadBM25Index, h1, h2]
  · intro sb h1 h2 h3
    simp [AIStore.bm25Search, AIStore.loadBM25Index, h1, h2, h3]
  · intro idx h1 h2
    simp only [AIStore.bm25Search, h1, h2]

/-- C10: after `clearBookIndex`, the book reads as not indexed and its
`indexingStates` entry is gone; exactly the `chunks`, `bookMeta` and
`bm25Indices` stores and their caches are cleared, while the conversations
and messages stores and the conversation cache are untouched, so
`getConversations` and `getMessages` return the same results as before. -/
theorem claim_C10 (st : BookStore)
    (entry : Option RagService.IndexingState) (cid : String) :
    (AIStore.isIndexed (RagService.clearBookIndex st entry).1).2 = false ∧
    (RagService.clearBookIndex st entry).2 = none ∧
    (RagService.clearBookIndex st entry).1.dbChunks = [] ∧
    (RagService.clearBookIndex st entry).1.dbMeta = none ∧
    (RagService.clearBookIndex st entry).1.dbBM25 = none ∧
    (RagService.clearBookIndex st entry).1.chunkCache = none ∧
    (RagService.clearBookIndex st entry).1.indexCache = none ∧
    (RagService.clearBookIndex st entry).1.metaCache = none ∧
    (RagService.clearBookIndex st entry).1.dbConversations
      = st.dbConversations ∧
    (RagService.clearBookIndex st entry).1.dbMessages = st.dbMessages ∧
    (RagService.clearBookIndex st entry).1.conversationCache
      = st.conversationCache ∧
    (AIStore.getConversations (RagService.clearBookIndex st entry).1).2
      = (AIStore.getConversations st).2 ∧
    (AIStore.getMessages cid (RagService.clearBookIndex st entry).1).2
      = (AIStore.getMessages cid st).2 := by
  obtain ⟨dc, dm, db, dconv, dmsg, cc, ic, mc, convc⟩ := st
  refine ⟨rfl, rfl, rfl, rfl, rfl, rfl, rfl, rfl, rfl, rfl, rfl, ?_, rfl⟩
  cases convc <;> rfl

theorem dedupNew_cons_pos {seen : List String} {x : ScoredChunk}
    {rest : List ScoredChunk} (h : seen.contains x.id = true) :
    dedupNew seen (x :: rest) = dedupNew seen rest := by
  simp only [dedupNew]
  rw [if_pos h]

theorem dedupNew_cons_neg {seen : List String} {x : ScoredChunk}
    {rest : List ScoredChunk} (h : ¬ seen.contains x.id = true) :
    dedupNew seen (x :: rest) = x :: dedupNew (seen ++ [x.id]) rest := by
  simp only [dedupNew]
  rw [if_neg h]

theorem mergeRetrieved_fst_fold (l : List ScoredChunk) :
    ∀ (A : List ScoredChunk) (B : List String),
      l.foldl (fun (acc : List ScoredChunk × List String) c =>
          (acc.1 ++ [c], acc.2 ++ [c.id])) (A, B)
        = (A ++ l, B ++ l.map (fun c => c.id)) := by
  induction l with
  | nil => intro A B; simp
  | cons c rest ih =>
    intro A B
    rw [List.foldl_cons, ih]
    simp

theorem mergeRetrieved_snd_fold (l : List ScoredChunk) :
    ∀ (A : List ScoredChunk) (B : List String),
      (l.foldl (fun (acc : List ScoredChunk × List String) c =>
          if acc.2.contains c.id then acc
          else (acc.1 ++ [c], acc.2 ++ [c.id])) (A, B)).1
        = A ++ dedupNew B l := by
  induction l with
  | nil => intro A B; simp [dedupNew]
  | cons c rest ih =>
    intro A B
    rw [List.foldl_cons]
    by_cases hc : B.contains c.id = true
    · rw [if_pos hc, ih, dedupNew_cons_pos hc]
    · rw [if_neg hc, ih, dedupNew_cons_neg hc]
      simp

theorem mergeRetrieved_eq (p s : List ScoredChunk) :
    TauriChatAdapter.mergeRetrieved p s
      = p ++ dedupNew (p.map (fun c => c.id)) s := by
  unfold TauriChatAdapter.mergeRetrieved
  rw [mergeRetrieved_fst_fold, mergeRetrieved_snd_fold]
  simp

theorem dedupNew_subset {c : ScoredChunk} :
    ∀ {s : List ScoredChunk} {seen : List String},
      c ∈ dedupNew seen s → c ∈ s := by
  intro s
  induction s with
  | nil => intro seen h; cases h
  | cons x rest ih =>
    intro seen h
    by_cases hc : seen.contains x.id = true
    · rw [dedupNew_cons_pos hc] at h
      exact List.mem_cons_of_mem x (ih h)
    · rw [dedupNew_cons_neg hc] at h
      rcases List.mem_cons.mp h with rfl | hmem
      · exact List.mem_cons_self _ _
      · exact List.mem_cons_of_mem x (ih hmem)

theorem dedupNew_nodup :
    ∀ (s : List ScoredChunk) (seen : List String), seen.Nodup →
      (seen ++ (dedupNew seen s).map (fun c => c.id)).Nodup := by
  intro s
  induction s with
  | nil =>
    intro seen h
    simpa [dedupNew]
  | cons x rest ih =>
    intro seen h
    by_cases hc : seen.contains x.id = true
    · rw [dedupNew_cons_pos hc]
      exact ih seen h
    · rw [dedupNew_cons_neg hc]
      have hnotin : x.id ∉ seen := by
        intro hmem
        exact hc (by simpa using hmem)
      have hseen' : (seen ++ [x.id]).Nodup := by
        rw [List.nodup_append]
        refine ⟨h, List.nodup_singleton _, ?_⟩
        intro a ha hb
        rw [List.mem_singleton.mp hb] at ha
        exact hnotin ha
      have := ih (seen ++ [x.id]) hseen'
      simpa [List.append_assoc] using this

theorem mergeRetrieved_spec (p s : List ScoredChunk)
    (hpids : (p.map (fun c => c.id)).Nodup) :
    (TauriChatAdapter.mergeRetrieved p s).take p.length = p ∧
    (∀ c ∈ (TauriChatAdapter.mergeRetrieved p s).drop p.length, c ∈ s) ∧
    ((TauriChatAdapter.mergeRetrieved p s).map (fun c => c.id)).Nodup := by
  rw [mergeRetrieved_eq]
  refine ⟨?_, ?_, ?_⟩
  · exact List.take_left p _
  · intro c hc
    rw [List.drop_left] at hc
    exact dedupNew_subset hc
  · rw [List.map_append]
    exact dedupNew_nodup s _ hpids

theorem getPageContextChunks_ids {cp : ℕ} {st : BookStore} :
    (RagService.getPageContextChunks cp st).2.map (fun c => c.id)
      = ((AIStore.getChunks st).2.filter
          (fun c => c.pageNumber = cp)).map (fun c => c.id) := by
  simp only [RagService.getPageContextChunks, AIStore.getChunksForPage,
    List.map_map]
  rfl

/-- C7: the adapter's retrieval merge keeps every page-context chunk (all
chunks of the current page) in front, appends only hybrid-search chunks
after them, and — given the store's chunk ids are pairwise distinct, as the
`chunks` object store's `id` keyPath guarantees — no chunk id appears twice
in the merged list. -/
theorem claim_C7 (st : BookStore) (cp : ℕ) (qe : Option (List ℚ))
    (q : String) (k : ℕ) (mp : Option ℕ)
    (hnodup : ((AIStore.getChunks st).2.map (fun c => c.id)).Nodup) :
    (TauriChatAdapter.mergeRetrieved
        (RagService.getPageContextChunks cp st).2
        (AIStore.hybridSearch qe q k mp st).2).take
        (RagService.getPageContextChunks cp st).2.length
      = (RagService.getPageContextChunks cp st).2 ∧
    (∀ c ∈ (TauriChatAdapter.mergeRetrieved
        (RagService.getPageContextChunks cp st).2
        (AIStore.hybridSearch qe q k mp st).2).drop
        (RagService.getPageContextChunks cp st).2.length,
      c ∈ (AIStore.hybridSearch qe q k mp st).2) ∧
    ((TauriChatAdapter.mergeRetrieved
        (RagService.getPageContextChunks cp st).2
        (AIStore.hybridSearch qe q k mp st).2).map
        (fun c => c.id)).Nodup := by
  refine mergeRetrieved_spec _ _ ?_
  rw [getPageContextChunks_ids]
  exact hnodup.sublist ((List.filter_sublist _).map _)

theorem getMeta_snd (st : BookStore) :
    (AIStore.getMeta st).2 = metaView st := by
  unfold AIStore.getMeta metaView
  cases st.metaCache with
  | some m => rfl
  | none => cases st.dbMeta <;> rfl

theorem isIndexed_snd (st : BookStore) :
    (AIStore.isIndexed st).2 = indexedView st := by
  simp only [AIStore.isIndexed]
  unfold indexedView
  rw [← getMeta_snd]
  cases (AIStore.getMeta st).2 <;> rfl

theorem isIndexed_fst (st : BookStore) :
    (AIStore.isIndexed st).1 = (AIStore.getMeta st).1 := by
  simp only [AIStore.isIndexed]
  cases (AIStore.getMeta st).2 <;> rfl

theorem getMeta_fst_cases (st : BookStore) :
    (AIStore.getMeta st).1 = st ∨
    ((AIStore.getMeta st).1 = { st with metaCache := st.dbMeta } ∧
      st.metaCache = none) := by
  unfold AIStore.getMeta
  cases hc : st.metaCache with
  | some m => exact Or.inl rfl
  | none =>
    cases hd : st.dbMeta with
    | some m => exact Or.inr ⟨rfl, rfl⟩
    | none => exact Or.inl rfl

theorem metaView_getMeta_fst (st : BookStore) :
    metaView (AIStore.getMeta st).1 = metaView st := by
  rcases getMeta_fst_cases st with h | ⟨h, hmc⟩
  · rw [h]
  · rw [h]
    unfold metaView
    rw [hmc]
    cases st.dbMeta <;> rfl

theorem metaView_saveChunks (chunks : List TextChunk) (st : BookStore) :
    metaView (AIStore.saveChunks chunks st) = metaView st := by
  cases chunks <;> rfl

theorem metaView_saveBM25 (build : List TextChunk → LunrIndex)
    (chunks : List TextChunk) (st : BookStore) :
    metaView (AIStore.saveBM25Index build chunks st) = metaView st := rfl

theorem dbMeta_getMeta_fst (st : BookStore) :
    (AIStore.getMeta st).1.dbMeta = st.dbMeta := by
  rcases getMeta_fst_cases st with h | ⟨h, _⟩ <;> rw [h]

theorem dbMeta_saveChunks (chunks : List TextChunk) (st : BookStore) :
    (AIStore.saveChunks chunks st).dbMeta = st.dbMeta := by
  cases chunks <;> rfl

theorem indexedView_eq (st st' : BookStore)
    (h : metaView st' = metaView st) : indexedView st' = indexedView st := by
  unfold indexedView
  rw [h]

/-- C4 (amended): on an already-indexed book, `indexBook` returns
immediately with success, performs no store write, and leaves the store and
the `indexingStates` entry unchanged — except that the `isIndexed` read may
populate the meta read-cache with the already-persisted meta record. -/
theorem claim_C4 (build : List TextChunk → LunrIndex)
    (bh bt an em : String) (now : ℕ)
    (sections : List RagService.SectionOutcome) (abort : ℕ → Bool)
    (embedOut : RagService.EmbedOutcome) (sf : RagService.StoreFailures)
    (prev : Option RagService.IndexingState) (st : BookStore)
    (hidx : (AIStore.isIndexed st).2 = true) :
    let res := RagService.indexBook build bh bt an em now sections abort
      embedOut sf prev st
    res.outcome = Except.ok () ∧ res.writes = [] ∧ res.entry = prev ∧
    res.store.dbChunks = st.dbChunks ∧ res.store.dbMeta = st.dbMeta ∧
    res.store.dbBM25 = st.dbBM25 ∧
    res.store.dbConversations = st.dbConversations ∧
    res.store.dbMessages = st.dbMessages ∧
    res.store.chunkCache = st.chunkCache ∧
    res.store.indexCache = st.indexCache ∧
    res.store.conversationCache = st.conversationCache ∧
    (res.store.metaCache = st.metaCache ∨
      res.store.metaCache = st.dbMeta) := by
  intro res
  have hres : res = ⟨(AIStore.isIndexed st).1, prev, [], Except.ok ()⟩ := by
    show RagService.indexBook build bh bt an em now sections abort
      embedOut sf prev st = _
    simp only [RagService.indexBook, hidx, if_true]
  rw [hres, isIndexed_fst]
  rcases getMeta_fst_cases st with h | ⟨h, _⟩ <;> rw [h]
  · exact ⟨rfl, rfl, rfl, rfl, rfl, rfl, rfl, rfl, rfl, rfl, rfl,
      Or.inl rfl⟩
  · exact ⟨rfl, rfl, rfl, rfl, rfl, rfl, rfl, rfl, rfl, rfl, rfl,
      Or.inr rfl⟩

theorem indexedView_isIndexed_fst (st : BookStore) :
    indexedView (AIStore.isIndexed st).1 = indexedView st := by
  rw [isIndexed_fst]
  exact indexedView_eq _ _ (metaView_getMeta_fst st)

theorem isIndexed_preserved {st st' : BookStore}
    (h : metaView st' = metaView st)
    (hfalse : (AIStore.isIndexed st).2 = false) :
    (AIStore.isIndexed st').2 = false := by
  rw [isIndexed_snd] at hfalse ⊢
  rw [indexedView_eq _ _ h]
  exact hfalse

theorem C5Prop_abort (st : BookStore) (sX : RagService.IndexingState) :
    C5Prop st ⟨(AIStore.isIndexed st).1, some (RagService.abortedState sX),
      [], Except.error RagService.IndexErr.aborted⟩ := by
  refine ⟨⟨_, rfl⟩, ?_⟩
  intro e _
  refine ⟨List.not_mem_nil _, ?_, ⟨RagService.abortedState sX, rfl, rfl⟩, ?_⟩
  · rw [isIndexed_fst]
    exact dbMeta_getMeta_fst st
  · intro hfalse
    rw [isIndexed_snd, indexedView_isIndexed_fst, ← isIndexed_snd]
    exact hfalse

theorem C5Prop_ok_empty (st : BookStore)
    (entry : Option RagService.IndexingState) :
    C5Prop st ⟨(AIStore.isIndexed st).1, entry, [], Except.ok ()⟩ := by
  refine ⟨⟨_, rfl⟩, ?_⟩
  intro e he
  simp at he

theorem persistPhase_C5 (build : List TextChunk → LunrIndex)
    (meta : BookIndexMeta) (sf : RagService.StoreFailures)
    (chunksP : List TextChunk) (base : RagService.IndexingState)
    {st0 st : BookStore} (hdb : st0.dbMeta = st.dbMeta)
    (hview : metaView st0 = metaView st) :
    C5Prop st (RagService.persistPhase build meta sf chunksP base st0) := by
  unfold RagService.persistPhase
  by_cases h1 : sf.chunks = true
  · rw [if_pos h1]
    refine ⟨⟨_, rfl⟩, ?_⟩
    intro e _
    refine ⟨List.not_mem_nil _, hdb, ⟨_, rfl, rfl⟩, ?_⟩
    intro hfalse
    exact isIndexed_preserved hview hfalse
  · rw [if_neg h1]
    by_cases h2 : sf.bm25 = true
    · rw [if_pos h2]
      refine ⟨⟨_, rfl⟩, ?_⟩
      intro e _
      refine ⟨show RagService.WriteKind.wMeta ∉
          [RagService.WriteKind.wChunks] by decide, ?_, ⟨_, rfl, rfl⟩, ?_⟩
      · rw [dbMeta_saveChunks]
        exact hdb
      · intro hfalse
        exact isIndexed_preserved
          ((metaView_saveChunks _ _).trans hview) hfalse
    · rw [if_neg h2]
      by_cases h3 : sf.meta = true
      · rw [if_pos h3]
        refine ⟨⟨_, rfl⟩, ?_⟩
        intro e _
        refine ⟨show RagService.WriteKind.wMeta ∉
            [RagService.WriteKind.wChunks, RagService.WriteKind.wBM25]
            by decide, ?_, ⟨_, rfl, rfl⟩, ?_⟩
        · rw [show (AIStore.saveBM25Index build chunksP
              (AIStore.saveChunks chunksP st0)).dbMeta
              = (AIStore.saveChunks chunksP st0).dbMeta from rfl,
            dbMeta_saveChunks]
          exact hdb
        · intro hfalse
          exact isIndexed_preserved
            (((metaView_saveBM25 _ _ _).trans
              (metaView_saveChunks _ _)).trans hview) hfalse
      · rw [if_neg h3]
        refine ⟨List.prefix_refl _, ?_⟩
        intro e he
        simp at he

/-- C5: within one `indexBook` run the successful persistence writes follow
the order chunks, then BM25 index, then meta (they form a prefix of that
sequence), and whenever the run ends with an error — cooperative
cancellation observed at any checkpoint, an aborted embedding call, or a
failed persistence transaction — the meta record is not written, the
registered `IndexingState` has status `error`, and a previously unindexed
book still reads as not indexed. -/
theorem claim_C5 (build : List TextChunk → LunrIndex)
    (bh bt an em : String) (now : ℕ)
    (sections : List RagService.SectionOutcome) (abort : ℕ → Bool)
    (embedOut : RagService.EmbedOutcome) (sf : RagService.StoreFailures)
    (prev : Option RagService.IndexingState) (st : BookStore) :
    C5Prop st (RagService.indexBook build bh bt an em now sections abort
      embedOut sf prev st) := by
  simp only [RagService.indexBook]
  by_cases h1 : (AIStore.isIndexed st).2 = true
  · rw [if_pos h1]
    exact C5Prop_ok_empty st prev
  · rw [if_neg h1]
    by_cases h2 : abort 0 = true
    · rw [if_pos h2]
      exact C5Prop_abort st _
    · rw [if_neg h2]
      cases hcp : RagService.chunkPhase abort 1 sections [] with
      | error err => exact C5Prop_abort st _
      | ok pr =>
        obtain ⟨c1, allChunks⟩ := pr
        dsimp only
        by_cases h3 : allChunks.length = 0
        · rw [if_pos h3]
          exact C5Prop_ok_empty st _
        · rw [if_neg h3]
          by_cases h4 : abort c1 = true
          · rw [if_pos h4]
            exact C5Prop_abort st _
          · rw [if_neg h4]
            cases embedOut with
            | aborted => exact C5Prop_abort st _
            | failed =>
              dsimp only
              by_cases h5 : abort (c1 + 1) = true
              · rw [if_pos h5]
                exact C5Prop_abort st _
              · rw [if_neg h5]
                refine persistPhase_C5 _ _ _ _ _ ?_ ?_
                · rw [isIndexed_fst]
                  exact dbMeta_getMeta_fst st
                · rw [isIndexed_fst]
                  exact metaView_getMeta_fst st
            | success embs =>
              dsimp only
              by_cases h5 : abort (c1 + 1) = true
              · rw [if_pos h5]
                exact C5Prop_abort st _
              · rw [if_neg h5]
                by_cases h6 : abort (c1 + 2) = true
                · rw [if_pos h6]
                  exact C5Prop_abort st _
                · rw [if_neg h6]
                  refine persistPhase_C5 _ _ _ _ _ ?_ ?_
                  · rw [isIndexed_fst]
                    exact dbMeta_getMeta_fst st
                  · rw [isIndexed_fst]
                    exact metaView_getMeta_fst st

theorem producedChunks_fold :
    ∀ (l : List RagService.SectionOutcome) (acc : List TextChunk),
      l.foldl (fun acc s =>
        acc ++ match s with
          | RagService.SectionOutcome.err => []
          | RagService.SectionOutcome.ok textLen chunks =>
            if textLen < 100 then [] else chunks) acc
      = acc ++ RagService.producedChunks l := by
  intro l
  induction l with
  | nil =>
    intro acc
    simp [RagService.producedChunks]
  | cons s rest ih =>
    intro acc
    rw [List.foldl_cons, ih]
    conv_rhs =>
      rw [show RagService.producedChunks (s :: rest)
        = rest.foldl (fun acc s =>
            acc ++ match s with
              | RagService.SectionOutcome.err => []
              | RagService.SectionOutcome.ok textLen chunks =>
                if textLen < 100 then [] else chunks)
            ([] ++ match s with
              | RagService.SectionOutcome.err => []
              | RagService.SectionOutcome.ok textLen chunks =>
                if textLen < 100 then [] else chunks) from rfl, ih]
    simp

theorem producedChunks_cons (s : RagService.SectionOutcome)
    (rest : List RagService.SectionOutcome) :
    RagService.producedChunks (s :: rest)
      = (match s with
        | RagService.SectionOutcome.err => []
        | RagService.SectionOutcome.ok textLen chunks =>
          if textLen < 100 then [] else chunks)
        ++ RagService.producedChunks rest := by
  show List.foldl (fun acc s =>
      acc ++ match s with
        | RagService.SectionOutcome.err => []
        | RagService.SectionOutcome.ok textLen chunks =>
          if textLen < 100 then [] else chunks)
      ([] ++ match s with
        | RagService.SectionOutcome.err => []
        | RagService.SectionOutcome.ok textLen chunks =>
          if textLen < 100 then [] else chunks) rest = _
  rw [producedChunks_fold]
  simp

theorem chunkPhase_no_abort {abort : ℕ → Bool}
    (habort : ∀ i, abort i = false) :
    ∀ (sections : List RagService.SectionOutcome) (c : ℕ)
      (acc : List TextChunk),
      RagService.chunkPhase abort c sections acc
        = Except.ok (c + sections.length,
            acc ++ RagService.producedChunks sections) := by
  intro sections
  induction sections with
  | nil =>
    intro c acc
    simp [RagService.chunkPhase, RagService.producedChunks]
  | cons s rest ih =>
    intro c acc
    unfold RagService.chunkPhase
    rw [habort c, if_neg (by simp), ih, producedChunks_cons,
      ← List.append_assoc]
    simp only [List.length_cons]
    rw [show c + 1 + rest.length = c + (rest.length + 1) from by omega]

theorem chunkCache_saveChunks {chunks : List TextChunk} (h : chunks ≠ [])
    (st : BookStore) :
    (AIStore.saveChunks chunks st).chunkCache = some chunks := by
  cases chunks with
  | nil => exact absurd rfl h
  | cons a l => rfl

theorem vectorSearch_of_no_embeddings {chunks : List TextChunk}
    (h : ∀ c ∈ chunks, c.embedding = none) {qe : List ℚ} {k : ℕ}
    {mp : Option ℕ} {st : BookStore} (hcache : st.chunkCache = some chunks) :
    (AIStore.vectorSearch qe k mp st).2 = [] := by
  simp only [AIStore.vectorSearch]
  have hget : (AIStore.getChunks st).2 = chunks := by
    unfold AIStore.getChunks
    rw [hcache]
  rw [hget]
  have hfm : List.filterMap (fun c =>
      if AIStore.pastBound mp c = true then none
      else
        Option.map (fun e =>
          ({ toTextChunk := c
             score := cosineSimilarity qe e
             searchMethod := SearchMethod.vector } : ScoredChunk))
          c.embedding) chunks = [] := by
    rw [List.filterMap_eq_nil_iff]
    intro c hc
    by_cases hpb : AIStore.pastBound mp c = true
    · rw [if_pos hpb]
    · rw [if_neg hpb, h c hc]
      rfl
  rw [hfm]
  rw [show stableSortBy AIStore.byScoreDesc ([] : List ScoredChunk) = []
    from rfl]
  exact List.take_nil

/-- C6: when the bulk embedding fails permanently (non-cancellation) on a
previously unindexed book with chunks produced by the chunker (whose chunks
carry no embeddings) and nothing aborts or fails to persist, `indexBook`
does not rethrow: it persists the chunks without vectors, builds and
persists the BM25 index over them, and writes meta — the book ends up
indexed with the lexical index available while vector search over it
returns no results. -/
theorem claim_C6 (build : List TextChunk → LunrIndex)
    (bh bt an em : String) (now : ℕ)
    (sections : List RagService.SectionOutcome) (abort : ℕ → Bool)
    (prev : Option RagService.IndexingState) (st : BookStore)
    (hnidx : (AIStore.isIndexed st).2 = false)
    (habort : ∀ i, abort i = false)
    (hne : RagService.producedChunks sections ≠ [])
    (hemb : ∀ c ∈ RagService.producedChunks sections, c.embedding = none) :
    let res := RagService.indexBook build bh bt an em now sections abort
      RagService.EmbedOutcome.failed ⟨false, false, false⟩ prev st
    res.outcome = Except.ok () ∧
    res.writes = [RagService.WriteKind.wChunks, RagService.WriteKind.wBM25,
      RagService.WriteKind.wMeta] ∧
    res.store.dbMeta = some ⟨bh, bt, an, sections.length,
      (RagService.producedChunks sections).length, em, now⟩ ∧
    (AIStore.isIndexed res.store).2 = true ∧
    res.store.indexCache
      = some (build (RagService.producedChunks sections)) ∧
    res.store.dbBM25
      = some ⟨some (build (RagService.producedChunks sections))⟩ ∧
    (∀ (qe : List ℚ) (k : ℕ) (mp : Option ℕ),
      (AIStore.vectorSearch qe k mp res.store).2 = []) := by
  intro res
  have hlen : ¬ (RagService.producedChunks sections).length = 0 :=
    fun h0 => hne (List.length_eq_zero.mp h0)
  have hres : res = ⟨AIStore.saveMeta
      ⟨bh, bt, an, sections.length,
        (RagService.producedChunks sections).length, em, now⟩
      (AIStore.saveBM25Index build (RagService.producedChunks sections)
        (AIStore.saveChunks (RagService.producedChunks sections)
          (AIStore.isIndexed st).1)),
      some ⟨RagService.IndexingStatus.complete, 100, 0,
        (RagService.producedChunks sections).length, none⟩,
      [RagService.WriteKind.wChunks, RagService.WriteKind.wBM25,
        RagService.WriteKind.wMeta], Except.ok ()⟩ := by
    show RagService.indexBook build bh bt an em now sections abort
      RagService.EmbedOutcome.failed ⟨false, false, false⟩ prev st = _
    simp only [RagService.indexBook, RagService.persistPhase, hnidx, habort,
      chunkPhase_no_abort habort, List.nil_append, hlen,
      Bool.false_eq_true, if_false, ite_false]
  rw [hres]
  refine ⟨rfl, rfl, rfl, ?_, rfl, rfl, ?_⟩
  · rw [isIndexed_snd]
    unfold indexedView metaView
    show (match some (⟨bh, bt, an, sections.length,
        (RagService.producedChunks sections).length, em, now⟩
          : BookIndexMeta) with
      | some m => decide (0 < m.totalChunks)
      | none => false) = true
    exact decide_eq_true (Nat.pos_of_ne_zero hlen)
  · intro qe k mp
    refine vectorSearch_of_no_embeddings hemb ?_
    show (AIStore.saveChunks (RagService.producedChunks sections)
        (AIStore.isIndexed st).1).chunkCache
      = some (RagService.producedChunks sections)
    exact chunkCache_saveChunks hne _

/-! ## Concrete counterexamples and witnesses

Batteries marks the `Rat` arithmetic operations `[irreducible]`; the kernel
reduces them regardless, but the `decide` tactic's reduction stops at them.
The following attribute restores default reducibility so that concrete
stores evaluate; it affects only the closed computations below. -/

set_option allowUnsafeReducibility true in
attribute [semireducible] Rat.add Rat.mul Rat.neg Rat.sub Rat.div Rat.inv
  Rat.blt

/-- C2 (counterexample): at a store holding chunks with embeddings `[1]`
and `[-1]` and query embedding `[1]`, the cosine similarity of the second
chunk is `-1`, so after normalization its fused score is `-1` — the claim
that every normalized and fused score lies in `[0,1]` fails. -/
theorem claim_C2_counterexample :
    ¬ (∀ c ∈ (AIStore.hybridSearch (some [1]) "x" 2 none storeAB).2,
        0 ≤ c.score ∧ c.score ≤ 1) := by
  decide

theorem claim_C2_witness :
    (⟨chunkA, 1, SearchMethod.vector⟩ : ScoredChunk).score ≤ 1 ∧
    (⟨⟨"a2", "bh", 0, "Ch", 0, "alpha", none⟩, 4 / 5,
      SearchMethod.bm25⟩ : ScoredChunk).score ≤ 4 / 5 ∧
    (⟨chunkA, 1, SearchMethod.vector⟩ : ScoredChunk).score ≤ 1 ∧
    (⟨chunkA, 2, SearchMethod.context⟩ : ScoredChunk).score = 2 ∧
    (⟨chunkA, 1, SearchMethod.vector⟩ : ScoredChunk).score
      < (⟨chunkA, 2, SearchMethod.context⟩ : ScoredChunk).score := by
  refine ⟨?_, ?_, ?_, ?_, ?_⟩
  · exact claim_C2.1 [sampleV] _ (by decide)
  · exact claim_C2.2.1 [sampleB] _ (by decide)
  · exact claim_C2.2.2.1 storeAB (some [1]) "x" 2 none _ (by decide)
  · exact claim_C2.2.2.2.1 storeAB 0 _ (by decide)
  · exact claim_C2.2.2.2.2 storeAB storeAB (some [1]) "x" 2 0 none _
      (by decide) _ (by decide)

theorem claim_C3_witness :
    mergeEntrySpec [sampleV, sampleB]
      (⟨chunkA, 1, SearchMethod.hybrid⟩ : ScoredChunk) :=
  claim_C3.1 [sampleV, sampleB] _ (by decide)

theorem claim_C4_counterexample :
    (AIStore.isIndexed indexedColdStore).2 = true ∧
    (RagService.indexBook trivialBuild "bh" "T" "A" "m" 0 []
        (fun _ => false) RagService.EmbedOutcome.failed
        ⟨false, false, false⟩ none indexedColdStore).store.metaCache
      ≠ indexedColdStore.metaCache := by
  exact ⟨rfl, by decide⟩

theorem claim_C4_witness :
    (let res := RagService.indexBook trivialBuild "bh" "T" "A" "m" 0 []
      (fun _ => false) RagService.EmbedOutcome.failed ⟨false, false, false⟩
      none indexedColdStore
    res.outcome = Except.ok () ∧ res.writes = [] ∧ res.entry = none ∧
    res.store.dbChunks = indexedColdStore.dbChunks ∧
    res.store.dbMeta = indexedColdStore.dbMeta ∧
    res.store.dbBM25 = indexedColdStore.dbBM25 ∧
    res.store.dbConversations = indexedColdStore.dbConversations ∧
    res.store.dbMessages = indexedColdStore.dbMessages ∧
    res.store.chunkCache = indexedColdStore.chunkCache ∧
    res.store.indexCache = indexedColdStore.indexCache ∧
    res.store.conversationCache = indexedColdStore.conversationCache ∧
    (res.store.metaCache = indexedColdStore.metaCache ∨
      res.store.metaCache = indexedColdStore.dbMeta)) :=
  claim_C4 trivialBuild "bh" "T" "A" "m" 0 [] (fun _ => false)
    RagService.EmbedOutcome.failed ⟨false, false, false⟩ none
    indexedColdStore rfl

theorem claim_C5_witness :
    RagService.WriteKind.wMeta ∉ (RagService.indexBook trivialBuild "bh"
      "T" "A" "m" 0 [] (fun _ => true) RagService.EmbedOutcome.failed
      ⟨false, false, false⟩ none emptyStore).writes ∧
    (RagService.indexBook trivialBuild "bh" "T" "A" "m" 0 []
      (fun _ => true) RagService.EmbedOutcome.failed ⟨false, false, false⟩
      none emptyStore).store.dbMeta = emptyStore.dbMeta ∧
    (∃ s, (RagService.indexBook trivialBuild "bh" "T" "A" "m" 0 []
      (fun _ => true) RagService.EmbedOutcome.failed ⟨false, false, false⟩
      none emptyStore).entry = some s ∧
      s.status = RagService.IndexingStatus.error) ∧
    (AIStore.isIndexed (RagService.indexBook trivialBuild "bh" "T" "A" "m"
      0 [] (fun _ => true) RagService.EmbedOutcome.failed
      ⟨false, false, false⟩ none emptyStore).store).2 = false := by
  have h := (claim_C5 trivialBuild "bh" "T" "A" "m" 0 [] (fun _ => true)
    RagService.EmbedOutcome.failed ⟨false, false, false⟩ none
    emptyStore).2 RagService.IndexErr.aborted rfl
  exact ⟨h.1, h.2.1, h.2.2.1, h.2.2.2 rfl⟩

theorem claim_C6_witness :
    (let res := RagService.indexBook trivialBuild "bh" "T" "A" "m" 0
      [RagService.SectionOutcome.ok 150 [chunkN]] (fun _ => false)
      RagService.EmbedOutcome.failed ⟨false, false, false⟩ none emptyStore
    res.outcome = Except.ok () ∧
    res.writes = [RagService.WriteKind.wChunks, RagService.WriteKind.wBM25,
      RagService.WriteKind.wMeta] ∧
    res.store.dbMeta = some ⟨"bh", "T", "A", 1,
      (RagService.producedChunks
        [RagService.SectionOutcome.ok 150 [chunkN]]).length, "m", 0⟩ ∧
    (AIStore.isIndexed res.store).2 = true ∧
    res.store.indexCache = some (trivialBuild (RagService.producedChunks
      [RagService.SectionOutcome.ok 150 [chunkN]])) ∧
    res.store.dbBM25 = some ⟨some (trivialBuild (RagService.producedChunks
      [RagService.SectionOutcome.ok 150 [chunkN]]))⟩ ∧
    (∀ (qe : List ℚ) (k : ℕ) (mp : Option ℕ),
      (AIStore.vectorSearch qe k mp res.store).2 = [])) :=
  claim_C6 trivialBuild "bh" "T" "A" "m" 0
    [RagService.SectionOutcome.ok 150 [chunkN]] (fun _ => false) none
    emptyStore rfl (fun _ => rfl) (by decide)
    (by intro c hc; simp [RagService.producedChunks] at hc; rw [hc]; rfl)

theorem claim_C7_witness :
    (TauriChatAdapter.mergeRetrieved
        (RagService.getPageContextChunks 0 storeAB).2
        (AIStore.hybridSearch (some [1]) "x" 2 none storeAB).2).take
        (RagService.getPageContextChunks 0 storeAB).2.length
      = (RagService.getPageContextChunks 0 storeAB).2 ∧
    (∀ c ∈ (TauriChatAdapter.mergeRetrieved
        (RagService.getPageContextChunks 0 storeAB).2
        (AIStore.hybridSearch (some [1]) "x" 2 none storeAB).2).drop
        (RagService.getPageContextChunks 0 storeAB).2.length,
      c ∈ (AIStore.hybridSearch (some [1]) "x" 2 none storeAB).2) ∧
    ((TauriChatAdapter.mergeRetrieved
        (RagService.getPageContextChunks 0 storeAB).2
        (AIStore.hybridSearch (some [1]) "x" 2 none storeAB).2).map
        (fun c => c.id)).Nodup :=
  claim_C7 storeAB 0 (some [1]) "x" 2 none (by decide)

/-- C8 (counterexample): with the single-entry TOC `[(5, "A")]` and section
index 0, no entry has `id ≤ 0`, yet the code returns `"A"` (the first
entry's label) — the claim's description denotes no entry there, so the
claim as stated fails. -/
theorem claim_C8_counterexample :
    RagService.getChapterTitle [⟨5, "A"⟩] 0 = "A" ∧
    ¬ chapterTitleClaim [⟨5, "A"⟩] 0
        (RagService.getChapterTitle [⟨5, "A"⟩] 0) := by
  refine ⟨rfl, ?_⟩
  intro h
  obtain ⟨t, ht, _⟩ := h.2 (List.cons_ne_nil _ _)
  simp at ht

theorem claim_C8_witness :
    chapterTitleAmendedSpec [⟨0, "Ch1"⟩, ⟨2, "Ch2"⟩] 1
      (RagService.getChapterTitle [⟨0, "Ch1"⟩, ⟨2, "Ch2"⟩] 1) :=
  claim_C8 [⟨0, "Ch1"⟩, ⟨2, "Ch2"⟩] 1

theorem claim_C9_witness :
    (AIStore.bm25Search "q" 5 none emptyStore).2 = [] ∧
    (AIStore.bm25Search "q" 5 none corruptStore).2 = [] ∧
    (AIStore.bm25Search "q" 5 none failStore).2 = [] :=
  ⟨(claim_C9 "q" 5 none emptyStore).1 rfl rfl,
    (claim_C9 "q" 5 none corruptStore).2.1 ⟨none⟩ rfl rfl rfl,
    (claim_C9 "q" 5 none failStore).2.2 failIndex rfl rfl⟩
